import Mathlib

/-!
Verification of the mcp-app-proxy sandbox session core: a shallow embedding of
the CSP injector, the two-tier cache logic, the sandbox session message
handling, and the persistent cache API handler, with theorems checking the
natural-language specification against the embedded code.

Strings are modelled as `List Char`.  JavaScript regular-expression matching is
modelled concretely for the three fixed patterns the source uses, including
case-insensitive matching (ASCII canonicalisation, as in a non-unicode `/i`
regex) and the `$`-substitution rules of `String.prototype.replace`.
-/

namespace McpProxy

/-- Strings of the embedded program. -/
abbrev Str := List Char

/-- ASCII lower-casing on code points: the canonicalisation a case-insensitive
JavaScript regex applies to both pattern and input characters. -/
def lowNat (n : Nat) : Nat := if 65 ≤ n ∧ n ≤ 90 then n + 32 else n

/-- Case-insensitive character comparison (ASCII folding). -/
def ciEq (a b : Char) : Bool := lowNat a.toNat == lowNat b.toNat

/-- Does `s` start with pattern `p`, case-insensitively? -/
def startsWithCI : Str → Str → Bool
  | [], _ => true
  | _ :: _, [] => false
  | p :: ps, c :: cs => ciEq p c && startsWithCI ps cs

/-- Split `s` at its first `'>'`: `some (a, b)` with `s = a ++ '>' :: b` and no
`'>'` in `a`; `none` when `s` has no `'>'`.  This is how a greedy `[^>]*>` or
`[^>]+…[^>]*>` tail of the source's regexes consumes input. -/
def splitAtGt : Str → Option (Str × Str)
  | [] => none
  | c :: cs =>
    if c = '>' then some ([], cs)
    else
      match splitAtGt cs with
      | some (a, b) => some (c :: a, b)
      | none => none

/-- `escapeHtmlAttr` from `src/pages/[id]/index.tsx`: four sequential global
character replacements, `&`, `"`, `<`, `>` in that order. -/
def replaceAllChar (c : Char) (r : Str) : Str → Str
  | [] => []
  | x :: xs => (if x = c then r else [x]) ++ replaceAllChar c r xs

def escapeHtmlAttr (value : Str) : Str :=
  replaceAllChar '>' ("&gt;".toList)
    (replaceAllChar '<' ("&lt;".toList)
      (replaceAllChar '"' ("&quot;".toList)
        (replaceAllChar '&' ("&amp;".toList) value)))

/-- Decimal digit value of a character, if any. -/
def digitVal? (c : Char) : Option Nat :=
  if 48 ≤ c.toNat ∧ c.toNat ≤ 57 then some (c.toNat - 48) else none

/-- The `GetSubstitution` rules of `String.prototype.replace` with a string
replacement: `$$`, `$&` (matched text), a backtick form (text before the
match), `$'` (text after the match) and `$n`/`$nn` capture references; any
other `$` is literal.  `m` is the matched text, `b` the text before it, `a`
the text after it, `caps` the capture list. -/
def getSubstitution (m b a : Str) (caps : List Str) : Str → Str
  | [] => []
  | ['$'] => ['$']
  | '$' :: '$' :: t1 => '$' :: getSubstitution m b a caps t1
  | '$' :: '&' :: t1 => m ++ getSubstitution m b a caps t1
  | '$' :: '`' :: t1 => b ++ getSubstitution m b a caps t1
  | '$' :: '\'' :: t1 => a ++ getSubstitution m b a caps t1
  | '$' :: c1 :: t1 =>
    match digitVal? c1, t1 with
    | some v1, c2 :: t2 =>
      match digitVal? c2 with
      | some v2 =>
        if 1 ≤ 10 * v1 + v2 ∧ 10 * v1 + v2 ≤ caps.length then
          caps.getD (10 * v1 + v2 - 1) [] ++ getSubstitution m b a caps t2
        else if 1 ≤ v1 ∧ v1 ≤ caps.length then
          caps.getD (v1 - 1) [] ++ getSubstitution m b a caps (c2 :: t2)
        else '$' :: getSubstitution m b a caps (c1 :: c2 :: t2)
      | none =>
        if 1 ≤ v1 ∧ v1 ≤ caps.length then
          caps.getD (v1 - 1) [] ++ getSubstitution m b a caps (c2 :: t2)
        else '$' :: getSubstitution m b a caps (c1 :: c2 :: t2)
    | some v1, [] =>
      if 1 ≤ v1 ∧ v1 ≤ caps.length then caps.getD (v1 - 1) [] ++ []
      else '$' :: getSubstitution m b a caps [c1]
    | none, t3 => '$' :: getSubstitution m b a caps (c1 :: t3)
  | c :: t => c :: getSubstitution m b a caps t
termination_by s => s.length
decreasing_by all_goals simp [List.length_cons] <;> omega

/-- Match the regex `<NAME[^>]*>` (case-insensitive) at the head of `s`:
`some (op, attrs, rest)` with `s = op ++ attrs ++ '>' :: rest`, where `op` is
the five-or-so original characters matching `<NAME` and `attrs` (the `$1`
capture) has no `'>'`. -/
def tagMatchHere (name s : Str) : Option (Str × Str × Str) :=
  if startsWithCI ('<' :: name) s then
    match splitAtGt (s.drop (name.length + 1)) with
    | some (attrs, rest) => some (s.take (name.length + 1), attrs, rest)
    | none => none
  else none

/-- Leftmost match of `<NAME[^>]*>` in `s`: `some (pre, op, attrs, rest)` with
`s = pre ++ op ++ attrs ++ '>' :: rest` and no match starting inside `pre`. -/
def tagFind (name : Str) : Str → Option (Str × Str × Str × Str)
  | [] => none
  | c :: cs =>
    match tagMatchHere name (c :: cs) with
    | some (op, attrs, rest) => some ([], op, attrs, rest)
    | none =>
      match tagFind name cs with
      | some (pre, op, attrs, rest) => some (c :: pre, op, attrs, rest)
      | none => none

def isQuote (c : Char) : Bool := c = '"' || c = '\''

/-- The literal core of the source's CSP-detection regex:
`http-equiv=["']Content-Security-Policy["']`, matched case-insensitively at
the head of `s`. -/
def cspCoreAt (s : Str) : Bool :=
  startsWithCI ("http-equiv=".toList) s &&
    (match s.drop 11 with
     | q :: t =>
       isQuote q && startsWithCI ("Content-Security-Policy".toList) t &&
         (match t.drop 23 with
          | q2 :: _ => isQuote q2
          | [] => false)
     | [] => false)

/-- Does the CSP core occur anywhere in `s`? -/
def containsCspCore : Str → Bool
  | [] => false
  | c :: cs => cspCoreAt (c :: cs) || containsCspCore cs

/-- Match the source's CSP regex
`<meta[^>]+http-equiv=["']Content-Security-Policy["'][^>]*>` (case-insensitive)
at the head of `s`: since no character of the pattern other than its final one
may be `'>'`, a match runs exactly up to the first `'>'` after the `<meta`
prefix, and the core must occur at offset at least one past `<meta` (the
`[^>]+`).  Returns `some (matched, rest)` with `s = matched ++ rest`. -/
def cspMatchHere (s : Str) : Option (Str × Str) :=
  if startsWithCI ("<meta".toList) s then
    match splitAtGt (s.drop 5) with
    | some (mid, rest) =>
      match mid with
      | [] => none
      | _ :: midTail =>
        if containsCspCore midTail then some (s.take 5 ++ mid ++ ['>'], rest)
        else none
    | none => none
  else none

/-- Leftmost match of the CSP regex: `some (pre, matched, rest)` with
`s = pre ++ matched ++ rest` and no match starting inside `pre`. -/
def cspFind : Str → Option (Str × Str × Str)
  | [] => none
  | c :: cs =>
    match cspMatchHere (c :: cs) with
    | some (m, rest) => some ([], m, rest)
    | none =>
      match cspFind cs with
      | some (pre, m, rest) => some (c :: pre, m, rest)
      | none => none

/-- `DEFAULT_SANDBOX` from `src/pages/[id]/index.tsx`. -/
def DEFAULT_SANDBOX : Str := "allow-scripts allow-same-origin".toList

/-- `DEFAULT_CSP` from `src/pages/[id]/index.tsx`. -/
def DEFAULT_CSP : Str :=
  "default-src 'none'; script-src 'self' 'unsafe-inline' 'unsafe-eval' blob:; style-src 'self' 'unsafe-inline' blob:; img-src 'self' data: blob:; font-src 'self' data: blob:; connect-src *; media-src 'self' data: blob:; frame-src *; object-src 'none'; base-uri 'self'; form-action 'none'".toList

/-- The meta tag `ensureCspMeta` builds:
`<meta http-equiv="Content-Security-Policy" content="${escapeHtmlAttr(csp)}">`. -/
def metaTagFor (csp : Str) : Str :=
  "<meta http-equiv=\"Content-Security-Policy\" content=\"".toList ++
    escapeHtmlAttr csp ++ "\">".toList

/-- `injectIntoHead` from `src/pages/[id]/index.tsx`.  The two `.replace`
branches substitute the template (which carries `$1`) via `getSubstitution`;
the final branch is plain template-literal concatenation. -/
def injectIntoHead (html headContent : Str) : Str :=
  if headContent = [] then html
  else
    match tagFind ("head".toList) html with
    | some (pre, op, attrs, rest) =>
      pre ++
        getSubstitution (op ++ attrs ++ ['>']) pre rest [attrs]
          ("<head$1>\n".toList ++ headContent ++ ['\n']) ++ rest
    | none =>
      match tagFind ("html".toList) html with
      | some (pre, op, attrs, rest) =>
        pre ++
          getSubstitution (op ++ attrs ++ ['>']) pre rest [attrs]
            ("<html$1>\n<head>\n".toList ++ headContent ++ "\n</head>".toList) ++ rest
      | none => "<head>\n".toList ++ headContent ++ "\n</head>\n".toList ++ html

/-- `ensureCspMeta` from `src/pages/[id]/index.tsx` (the spec's
`ensureCspTag`): empty document or empty policy pass through; an existing CSP
meta tag is kept (`overwrite = false`) or replaced in place
(`overwrite = true`, a `.replace` whose pattern has no capture groups);
otherwise the new tag is injected via `injectIntoHead`. -/
def ensureCspMeta (html csp : Str) (overwrite : Bool := false) : Str :=
  if html = [] ∨ csp = [] then html
  else
    let metaTag := metaTagFor csp
    match cspFind html with
    | some (pre, matched, rest) =>
      if overwrite then pre ++ getSubstitution matched pre rest [] metaTag ++ rest
      else html
    | none => injectIntoHead html metaTag

/-- Number of positions in `s` at which the CSP regex matches: the count of
CSP meta tags a scan of the document detects. -/
def cspCount : Str → Nat
  | [] => 0
  | c :: cs => (if (cspMatchHere (c :: cs)).isSome then 1 else 0) + cspCount cs

/-- `s.includes(needle)` for JavaScript strings: does `needle` occur as a
contiguous literal substring? -/
def jsIncludes (needle : Str) : Str → Bool
  | [] => needle.isEmpty
  | c :: cs => needle.isPrefixOf (c :: cs) || jsIncludes needle cs

/-- The ECMAScript white-space and line-terminator code points removed by
`String.prototype.trim`. -/
def isJsWhitespace (c : Char) : Bool :=
  ([9, 10, 11, 12, 13, 32, 160, 0x1680, 0x2000, 0x2001, 0x2002, 0x2003, 0x2004,
    0x2005, 0x2006, 0x2007, 0x2008, 0x2009, 0x200A, 0x2028, 0x2029, 0x202F,
    0x205F, 0x3000, 0xFEFF] : List Nat).contains c.toNat

/-- `String.prototype.trim`. -/
def jsTrim (s : Str) : Str :=
  ((s.dropWhile isJsWhitespace).reverse.dropWhile isJsWhitespace).reverse

/-- `getCachedHtml` over the module-level `htmlCache` map, modelled as an
association list (first binding wins, as `Map.get`). -/
def getCachedHtml : List (Str × Str) → Str → Option Str
  | [], _ => none
  | (k, v) :: rest, key => if k = key then some v else getCachedHtml rest key

/-- `setCachedHtml`: `Map.set` semantics — the binding for `key` is replaced. -/
def setCachedHtml (cache : List (Str × Str)) (key html : Str) : List (Str × Str) :=
  (key, html) :: cache.filter (fun kv => if kv.1 = key then false else true)

/-- UTF-8 bytes of a scalar value, used by the `encodeURIComponent` model. -/
def utf8Bytes (c : Char) : List Nat :=
  let n := c.toNat
  if n < 0x80 then [n]
  else if n < 0x800 then [0xC0 + n / 0x40, 0x80 + n % 0x40]
  else if n < 0x10000 then
    [0xE0 + n / 0x1000, 0x80 + n / 0x40 % 0x40, 0x80 + n % 0x40]
  else [0xF0 + n / 0x40000, 0x80 + n / 0x1000 % 0x40, 0x80 + n / 0x40 % 0x40,
    0x80 + n % 0x40]

def hexDigitUpper (n : Nat) : Char :=
  if n < 10 then Char.ofNat (48 + n) else Char.ofNat (55 + n)

/-- The characters `encodeURIComponent` leaves unescaped. -/
def uriUnreservedComponent (c : Char) : Bool :=
  (65 ≤ c.toNat && c.toNat ≤ 90) || (97 ≤ c.toNat && c.toNat ≤ 122) ||
    (48 ≤ c.toNat && c.toNat ≤ 57) ||
    (['-', '_', '.', '!', '~', '*', '\'', '(', ')'] : List Char).contains c

/-- The `encodeURIComponent` built-in: unreserved characters pass, everything
else is percent-encoded per UTF-8 byte with upper-case hex. -/
def encodeURIComponent (s : Str) : Str :=
  s.flatMap fun c =>
    if uriUnreservedComponent c then [c]
    else (utf8Bytes c).flatMap fun b => ['%', hexDigitUpper (b / 16), hexDigitUpper (b % 16)]

/-- `encodeCacheKey` from `src/utils/cache.ts`: double-encode to keep slashes
and colons intact through Next routing. -/
def encodeCacheKey (key : Str) : Str := encodeURIComponent (encodeURIComponent key)

def CACHE_ENDPOINT_BASE : Str := "/api/cache".toList

/-- `buildCachePath` from `src/utils/cache.ts`; a present-but-empty namespace
is falsy in the source and behaves like an absent one. -/
def buildCachePath (key : Str) (ns : Option Str) : Str :=
  let namespacedKey :=
    match ns with
    | some n => if n = [] then key else n ++ "::".toList ++ key
    | none => key
  CACHE_ENDPOINT_BASE ++ ['/'] ++ encodeCacheKey namespacedKey

/-- Outcome of one `fetch` of the persistent tier: a thrown transport error,
or a response with its `ok` flag and body text. -/
inductive FetchOutcome where
  | networkError
  | response (ok : Bool) (body : Str)
  deriving DecidableEq

/-- `fetchCachedHtmlFromApi` from `src/utils/cache.ts` (with `fetch`
available): a thrown error or a non-2xx response is reported as `none`, a
2xx response yields its body. `world` maps a request path to its outcome. -/
def fetchCachedHtmlFromApi (world : Str → FetchOutcome) (key : Str) (ns : Option Str) :
    Option Str :=
  match world (buildCachePath key ns) with
  | .networkError => none
  | .response ok body => if ok then some body else none

/-- `persistCachedHtmlToApi` from `src/utils/cache.ts`: the fire-and-forget
POST request it issues, as (path, body). -/
def persistCachedHtmlToApi (key html : Str) (ns : Option Str) : Str × Str :=
  (buildCachePath key ns, html)

/-- The query/path parameters the routing layer hands the proxy page. -/
structure Config where
  flowId : Option Str
  resourceUrl : Option Str
  noCacheParam : Bool
  deriving DecidableEq

/-- `cacheNamespace = flowId || 'default'` (an empty `flowId` is falsy). -/
def cacheNamespace (cfg : Config) : Str :=
  match cfg.flowId with
  | some f => if f = [] then "default".toList else f
  | none => "default".toList

/-- The namespaced cache key `${cacheNamespace}::${resource}`. -/
def namespacedKeyFor (cfg : Config) (resource : Str) : Str :=
  cacheNamespace cfg ++ "::".toList ++ resource

/-- The mutable state of one mounted proxy session, together with the
observable effect logs (messages posted into the inner iframe, messages
posted to the parent, cache writes, persistent POSTs). -/
structure SessionState where
  innerReady : Bool
  pending : List Nat
  widgetInbox : List Nat
  hostInbox : List Nat
  srcdoc : Option Str
  sandboxAttr : Str
  memCache : List (Str × Str)
  persistPosts : List (Str × Str)
  contentWindowPresent : Bool
  flushTimeoutArmed : Bool
  deriving DecidableEq

/-- Session state right after the iframe is created. -/
def initialSession : SessionState where
  innerReady := false
  pending := []
  widgetInbox := []
  hostInbox := []
  srcdoc := none
  sandboxAttr := DEFAULT_SANDBOX
  memCache := []
  persistPosts := []
  contentWindowPresent := true
  flushTimeoutArmed := false

/-- `forwardToInner`: post to the inner iframe when ready (and its window
exists), otherwise queue. -/
def forwardToInner (st : SessionState) (payload : Nat) : SessionState :=
  if st.innerReady && st.contentWindowPresent then
    { st with widgetInbox := st.widgetInbox ++ [payload] }
  else { st with pending := st.pending ++ [payload] }

/-- `flushPendingMessages`: bail out if the inner window is gone; else mark
ready and post every queued message in FIFO order. -/
def flushPendingMessages (st : SessionState) : SessionState :=
  if st.contentWindowPresent then
    { st with
        innerReady := true
        pending := []
        widgetInbox := st.widgetInbox ++ st.pending }
  else st

/-- Params of a `ui/notifications/sandbox-resource-ready` message; `none`
models an absent or non-string (for `csp`: falsy) field. -/
structure ResourceReadyParams where
  html : Option Str
  sandbox : Option Str
  resource : Option Str
  csp : Option Str
  deriving DecidableEq

/-- `typeof sandbox === 'string' && sandbox.trim() ? sandbox : DEFAULT_SANDBOX`. -/
def sandboxValueOf (p : ResourceReadyParams) : Str :=
  match p.sandbox with
  | some s => if jsTrim s = [] then DEFAULT_SANDBOX else s
  | none => DEFAULT_SANDBOX

/-- `csp || DEFAULT_CSP` (an empty string is falsy). -/
def effectiveCspOf (p : ResourceReadyParams) : Str :=
  match p.csp with
  | some c => if c = [] then DEFAULT_CSP else c
  | none => DEFAULT_CSP

/-- The `sandbox-resource-ready` branch of `handleMessage`: set the sandbox
attribute; then, when `html` is a string, inject the CSP (overwrite mode),
reset readiness, assign `srcdoc`, and — when the resource name
(`params.resource`, falling back to the page's `resourceUrl`) is a non-empty
string — write the memory tier and issue the fire-and-forget persistent
POST. -/
def handleResourceReady (cfg : Config) (st : SessionState) (p : ResourceReadyParams) :
    SessionState :=
  let st1 := { st with sandboxAttr := sandboxValueOf p }
  match p.html with
  | none => st1
  | some html =>
    let safeHtml := ensureCspMeta html (effectiveCspOf p) true
    let st2 := { st1 with innerReady := false, srcdoc := some safeHtml }
    let resourceForCache : Option Str :=
      match p.resource with
      | some r => some r
      | none => cfg.resourceUrl
    match resourceForCache with
    | some r =>
      if r = [] then st2
      else
        { st2 with
          memCache := setCachedHtml st2.memCache (namespacedKeyFor cfg r) safeHtml,
          persistPosts := st2.persistPosts ++
            [persistCachedHtmlToApi r safeHtml (some (cacheNamespace cfg))] }
    | none => st2

/-- A message from the inner iframe: the `client-ready` notification, or an
opaque payload forwarded to the host. -/
inductive WidgetMsg where
  | clientReady
  | other (payload : Nat)

/-- A message from the host page: `sandbox-resource-ready`, or an opaque
payload forwarded to the widget. -/
inductive HostMsg where
  | resourceReady (p : ResourceReadyParams)
  | other (payload : Nat)

/-- One event delivered to the session's handler: a host message, a widget
message, or the expiry of the 500ms fallback timer. -/
inductive SessionEvent where
  | fromHost (m : HostMsg)
  | fromWidget (m : WidgetMsg)
  | fallbackFire

/-- One step of the session handler, transcribing `handleMessage` and the
fallback-timeout callback. -/
def step (cfg : Config) (st : SessionState) : SessionEvent → SessionState
  | .fromWidget .clientReady => flushPendingMessages { st with flushTimeoutArmed := false }
  | .fromWidget (.other payload) => { st with hostInbox := st.hostInbox ++ [payload] }
  | .fromHost (.resourceReady p) => handleResourceReady cfg st p
  | .fromHost (.other payload) => forwardToInner st payload
  | .fallbackFire => if st.innerReady then st else flushPendingMessages st

/-- Run the session handler over a list of events. -/
def run (cfg : Config) (st : SessionState) (events : List SessionEvent) : SessionState :=
  events.foldl (step cfg) st

/-- A consultation of a cache tier during `primeIframeFromCache`. -/
inductive CacheAccess where
  | memRead (key : Str)
  | persistGet (path : Str)
  deriving DecidableEq

/-- Result of `primeIframeFromCache`: its boolean result, the tier
consultations it performed, the memory tier afterwards, and the `srcdoc`
assignment it made (if any). -/
structure PrimeResult where
  found : Bool
  accesses : List CacheAccess
  mem : List (Str × Str)
  srcdoc : Option Str
  deriving DecidableEq

/-- The legacy cache-busting marker checked with `resourceUrl.includes(...)`. -/
def cacheBusterLit : Str := "cache_buster".toList

/-- `primeIframeFromCache` from `src/pages/[id]/index.tsx`: bail out with no
tier access when the resource is absent/empty, when `noCache` is set, or when
the resource carries the legacy `cache_buster` marker; else memory tier first.
The source tests `if (inMemory)` and `if (cachedHtml)` — JavaScript
truthiness — so only a *non-empty* stored string is a hit: a stored empty
string falls through to the persistent tier exactly like an absent entry, and
a 2xx response with an empty body is not backfilled and reports a miss.  The
truthy cases are the `some (c :: cs)` patterns below. -/
def primeIframeFromCache (cfg : Config) (mem : List (Str × Str))
    (world : Str → FetchOutcome) : PrimeResult :=
  match cfg.resourceUrl with
  | none => ⟨false, [], mem, none⟩
  | some u =>
    if u = [] then ⟨false, [], mem, none⟩
    else if cfg.noCacheParam || jsIncludes cacheBusterLit u then
      ⟨false, [], mem, none⟩
    else
      let key := namespacedKeyFor cfg u
      match getCachedHtml mem key with
      | some (c :: cs) =>
        ⟨true, [.memRead key], mem, some (ensureCspMeta (c :: cs) DEFAULT_CSP)⟩
      | _ =>
        let path := buildCachePath u (some (cacheNamespace cfg))
        match fetchCachedHtmlFromApi world u (some (cacheNamespace cfg)) with
        | some (c :: cs) =>
          ⟨true, [.memRead key, .persistGet path], setCachedHtml mem key (c :: cs),
            some (ensureCspMeta (c :: cs) DEFAULT_CSP)⟩
        | _ => ⟨false, [.memRead key, .persistGet path], mem, none⟩

/-- Hex digit value (both cases), for percent-decoding. -/
def hexDigitVal? (c : Char) : Option Nat :=
  if 48 ≤ c.toNat ∧ c.toNat ≤ 57 then some (c.toNat - 48)
  else if 65 ≤ c.toNat ∧ c.toNat ≤ 70 then some (c.toNat - 55)
  else if 97 ≤ c.toNat ∧ c.toNat ≤ 102 then some (c.toNat - 87)
  else none

/-- First pass of the `decodeURIComponent` model: each `%HH` escape becomes a
byte (`Sum.inl`), every other character is literal (`Sum.inr`); a `%` not
followed by two hex digits is a `URIError` (`none`). -/
def pctTokens : Str → Option (List (Nat ⊕ Char))
  | [] => some []
  | '%' :: h1 :: h2 :: rest =>
    match hexDigitVal? h1, hexDigitVal? h2 with
    | some x, some y => (pctTokens rest).map (Sum.inl (16 * x + y) :: ·)
    | _, _ => none
  | '%' :: _ => none
  | c :: cs => (pctTokens cs).map (Sum.inr c :: ·)

/-- Second pass of the `decodeURIComponent` model: strict UTF-8 assembly of
escaped byte runs (continuation bytes must themselves come from escapes);
overlong forms, surrogates and out-of-range leads are `URIError`s. -/
def assembleTokens : List (Nat ⊕ Char) → Option Str
  | [] => some []
  | Sum.inr c :: rest => (assembleTokens rest).map (c :: ·)
  | Sum.inl b1 :: rest =>
    if b1 < 0x80 then (assembleTokens rest).map (Char.ofNat b1 :: ·)
    else if 0xC2 ≤ b1 ∧ b1 ≤ 0xDF then
      match rest with
      | Sum.inl b2 :: rest2 =>
        if 0x80 ≤ b2 ∧ b2 ≤ 0xBF then
          (assembleTokens rest2).map (Char.ofNat ((b1 - 0xC0) * 0x40 + (b2 - 0x80)) :: ·)
        else none
      | _ => none
    else if 0xE0 ≤ b1 ∧ b1 ≤ 0xEF then
      match rest with
      | Sum.inl b2 :: Sum.inl b3 :: rest3 =>
        if (if b1 = 0xE0 then 0xA0 else 0x80) ≤ b2 ∧
            b2 ≤ (if b1 = 0xED then 0x9F else 0xBF) ∧ 0x80 ≤ b3 ∧ b3 ≤ 0xBF then
          (assembleTokens rest3).map
            (Char.ofNat ((b1 - 0xE0) * 0x1000 + (b2 - 0x80) * 0x40 + (b3 - 0x80)) :: ·)
        else none
      | _ => none
    else if 0xF0 ≤ b1 ∧ b1 ≤ 0xF4 then
      match rest with
      | Sum.inl b2 :: Sum.inl b3 :: Sum.inl b4 :: rest4 =>
        if (if b1 = 0xF0 then 0x90 else 0x80) ≤ b2 ∧
            b2 ≤ (if b1 = 0xF4 then 0x8F else 0xBF) ∧
            0x80 ≤ b3 ∧ b3 ≤ 0xBF ∧ 0x80 ≤ b4 ∧ b4 ≤ 0xBF then
          (assembleTokens rest4).map
            (Char.ofNat ((b1 - 0xF0) * 0x40000 + (b2 - 0x80) * 0x1000 +
              (b3 - 0x80) * 0x40 + (b4 - 0x80)) :: ·)
        else none
      | _ => none
    else none

/-- The `decodeURIComponent` built-in: `none` models a thrown `URIError`. -/
def decodeURIComponentOpt (s : Str) : Option Str :=
  match pctTokens s with
  | some toks => assembleTokens toks
  | none => none

/-- `'a/b/c'.split('/')` — always at least one (possibly empty) segment. -/
def splitOnSlash : Str → List Str
  | [] => [[]]
  | c :: cs =>
    let r := splitOnSlash cs
    if c = '/' then [] :: r
    else
      match r with
      | h :: t => (c :: h) :: t
      | [] => [[c]]

/-- `segments.pop() || segments.pop() || null` from `getCacheKey`: the last
segment if non-empty, else the one before it if non-empty, else null. -/
def rawSegmentOf (segments : List Str) : Option Str :=
  match segments.getLast? with
  | some x =>
    if x = [] then
      match segments.dropLast.getLast? with
      | some y => if y = [] then none else some y
      | none => none
    else some x
  | none => none

/-- A request reaching the `/api/cache/[key]` edge handler.  `jsonHtml` is
`some h` when the body parses as JSON carrying a string `html` field; the
degenerate re-read-after-JSON paths are not exercised by any claim. -/
structure ApiRequest where
  origin : Str
  pathname : Str
  method : Str
  contentType : Option Str
  jsonHtml : Option Str
  bodyText : Str
  deriving DecidableEq

/-- A response from the edge handler: status, the headers the handler sets,
and the body. -/
structure ApiResponse where
  status : Nat
  contentType : Option Str
  cacheControl : Option Str
  allow : Option Str
  body : Str
  deriving DecidableEq

/-- `getCacheKey` from `src/pages/api/cache/[key].ts`: the raw last path
segment, decoded once (falling back to the raw segment when decoding throws),
and the cache URL re-encoded once from the raw segment. -/
def getCacheKey (req : ApiRequest) : Option Str × Str :=
  let segments := splitOnSlash req.pathname
  let raw := rawSegmentOf segments
  let cacheKey : Option Str :=
    match raw with
    | some r => some ((decodeURIComponentOpt r).getD r)
    | none => none
  let cacheUrl := req.origin ++ "/api/cache/".toList ++
    (match raw with
     | some r => encodeURIComponent r
     | none => [])
  (cacheKey, cacheUrl)

def ctHtmlValue : Str := "text/html; charset=utf-8".toList

def ccValue : Str :=
  "public, max-age=0, s-maxage=3600, stale-while-revalidate=86400".toList

def missingKeyResponse : ApiResponse where
  status := 400
  contentType := some ("application/json".toList)
  cacheControl := none
  allow := none
  body := "\x7b\"ok\":false,\"error\":\"Missing cache key\"\x7d".toList

/-- The `/api/cache/[key]` edge handler (`handler` in the source), over a
store mapping cache URLs to the HTML stored by `writeToCache` (which always
attaches the fixed content-type and cache-control headers reproduced on
read). -/
def handler (store : List (Str × Str)) (req : ApiRequest) :
    ApiResponse × List (Str × Str) :=
  let ck := getCacheKey req
  match ck.1 with
  | none => (missingKeyResponse, store)
  | some k =>
    if k = [] then (missingKeyResponse, store)
    else if req.method = "GET".toList then
      match getCachedHtml store ck.2 with
      | some html =>
        ({ status := 200, contentType := some ctHtmlValue, cacheControl := some ccValue,
           allow := none, body := html }, store)
      | none =>
        ({ status := 404, contentType := none, cacheControl := none, allow := none,
           body := "Not Found".toList }, store)
    else if req.method = "POST".toList then
      let htmlFromJson : Option Str :=
        match req.contentType with
        | some ct => if jsIncludes ("application/json".toList) ct then req.jsonHtml else none
        | none => none
      let html : Option Str :=
        match htmlFromJson with
        | some h => some h
        | none => if req.bodyText = [] then none else some req.bodyText
      match html with
      | some h =>
        if h = [] then
          ({ status := 400, contentType := some ("application/json".toList),
             cacheControl := none, allow := none,
             body := "\x7b\"ok\":false,\"error\":\"Missing HTML body\"\x7d".toList }, store)
        else
          ({ status := 200, contentType := some ("application/json".toList),
             cacheControl := none, allow := none, body := "\x7b\"ok\":true\x7d".toList },
            setCachedHtml store ck.2 h)
      | none =>
        ({ status := 400, contentType := some ("application/json".toList),
           cacheControl := none, allow := none,
           body := "\x7b\"ok\":false,\"error\":\"Missing HTML body\"\x7d".toList }, store)
    else
      ({ status := 405, contentType := none, cacheControl := none,
         allow := some ("GET, POST".toList),
         body := "Method ".toList ++ req.method ++ " Not Allowed".toList }, store)

/-! ## Session-machine lemmas -/

@[simp] lemma run_nil (cfg : Config) (st : SessionState) : run cfg st [] = st := rfl

@[simp] lemma run_cons (cfg : Config) (st : SessionState) (e : SessionEvent)
    (es : List SessionEvent) : run cfg st (e :: es) = run cfg (step cfg st e) es := rfl

lemma run_append (cfg : Config) (st : SessionState) (xs ys : List SessionEvent) :
    run cfg st (xs ++ ys) = run cfg (run cfg st xs) ys :=
  List.foldl_append _ _ xs ys

/-- The host-to-session events carrying opaque (non-`sandbox-resource-ready`)
payloads `ps`. -/
def hostOtherEvents (ps : List Nat) : List SessionEvent :=
  ps.map fun p => .fromHost (.other p)

/-- While the inner iframe is not ready, every opaque host message is queued,
in arrival order, and nothing else changes. -/
lemma run_hostOther_queue (cfg : Config) (ps : List Nat) (st : SessionState)
    (h : st.innerReady = false) :
    run cfg st (hostOtherEvents ps) = { st with pending := st.pending ++ ps } := by
  induction ps generalizing st with
  | nil => simp [hostOtherEvents]
  | cons p ps ih =>
    have hstep : step cfg st (.fromHost (.other p)) =
        { st with pending := st.pending ++ [p] } := by
      simp [step, forwardToInner, h]
    have hev : hostOtherEvents (p :: ps) =
        SessionEvent.fromHost (HostMsg.other p) :: hostOtherEvents ps := rfl
    rw [hev, run_cons, hstep, ih { st with pending := st.pending ++ [p] } (by simp [h])]
    simp

/-- Once the inner iframe is ready (and its window exists), every opaque host
message is forwarded immediately, in arrival order. -/
lemma run_hostOther_forward (cfg : Config) (ps : List Nat) (st : SessionState)
    (h1 : st.innerReady = true) (h2 : st.contentWindowPresent = true) :
    run cfg st (hostOtherEvents ps) = { st with widgetInbox := st.widgetInbox ++ ps } := by
  induction ps generalizing st with
  | nil => simp [hostOtherEvents]
  | cons p ps ih =>
    have hstep : step cfg st (.fromHost (.other p)) =
        { st with widgetInbox := st.widgetInbox ++ [p] } := by
      simp [step, forwardToInner, h1, h2]
    have hev : hostOtherEvents (p :: ps) =
        SessionEvent.fromHost (HostMsg.other p) :: hostOtherEvents ps := rfl
    rw [hev, run_cons, hstep,
      ih { st with widgetInbox := st.widgetInbox ++ [p] } (by simp [h1]) (by simp [h2])]
    simp

/-! ## C2 — handshake queueing and FIFO flush -/

/-- C2: while the session is not `READY`, opaque host messages accumulate in
the pending queue in arrival order and none reaches the widget; receiving
`client-ready` flushes the whole queue to the widget in FIFO order, and every
message arriving after the flush is forwarded immediately, so the widget sees
exactly `pre ++ post`, with an empty queue afterwards. -/
theorem c2_fifo_ordering (cfg : Config) (pre post : List Nat) :
    (run cfg initialSession (hostOtherEvents pre)).widgetInbox = [] ∧
    (run cfg initialSession (hostOtherEvents pre)).pending = pre ∧
    (run cfg initialSession (hostOtherEvents pre ++
      SessionEvent.fromWidget WidgetMsg.clientReady :: hostOtherEvents post)).widgetInbox =
        pre ++ post ∧
    (run cfg initialSession (hostOtherEvents pre ++
      SessionEvent.fromWidget WidgetMsg.clientReady :: hostOtherEvents post)).pending = [] := by
  have hpre : run cfg initialSession (hostOtherEvents pre) =
      { innerReady := false, pending := pre, widgetInbox := [], hostInbox := [],
        srcdoc := none, sandboxAttr := DEFAULT_SANDBOX, memCache := [], persistPosts := [],
        contentWindowPresent := true, flushTimeoutArmed := false } := by
    rw [run_hostOther_queue cfg pre initialSession rfl]; rfl
  have hflush : step cfg
      { innerReady := false, pending := pre, widgetInbox := [], hostInbox := [],
        srcdoc := none, sandboxAttr := DEFAULT_SANDBOX, memCache := [], persistPosts := [],
        contentWindowPresent := true, flushTimeoutArmed := false }
      (SessionEvent.fromWidget WidgetMsg.clientReady) =
      { innerReady := true, pending := [], widgetInbox := pre, hostInbox := [],
        srcdoc := none, sandboxAttr := DEFAULT_SANDBOX, memCache := [], persistPosts := [],
        contentWindowPresent := true, flushTimeoutArmed := false } := rfl
  refine ⟨by rw [hpre], by rw [hpre], ?_, ?_⟩ <;>
  · rw [run_append, hpre, run_cons, hflush, run_hostOther_forward cfg post _ rfl rfl]

/-! ## C7 — fallback timer flushes at most once -/

/-- C7: if `client-ready` never arrives, the fallback expiry flushes the
pending queue (the widget receives exactly the queued messages and the state
becomes ready); a second expiry — or any expiry in a ready state, i.e. after
a flush has already happened — is a no-op and delivers nothing. -/
theorem c7_fallback_once (cfg : Config) (pre : List Nat) :
    (run cfg initialSession (hostOtherEvents pre ++ [SessionEvent.fallbackFire])).widgetInbox =
      pre ∧
    (run cfg initialSession (hostOtherEvents pre ++ [SessionEvent.fallbackFire])).innerReady =
      true ∧
    (run cfg initialSession
      (hostOtherEvents pre ++ [SessionEvent.fallbackFire, SessionEvent.fallbackFire])).widgetInbox
      = pre ∧
    ∀ st : SessionState, st.innerReady = true → step cfg st SessionEvent.fallbackFire = st := by
  have hpre : run cfg initialSession (hostOtherEvents pre) =
      { innerReady := false, pending := pre, widgetInbox := [], hostInbox := [],
        srcdoc := none, sandboxAttr := DEFAULT_SANDBOX, memCache := [], persistPosts := [],
        contentWindowPresent := true, flushTimeoutArmed := false } := by
    rw [run_hostOther_queue cfg pre initialSession rfl]; rfl
  have hfire : step cfg
      { innerReady := false, pending := pre, widgetInbox := [], hostInbox := [],
        srcdoc := none, sandboxAttr := DEFAULT_SANDBOX, memCache := [], persistPosts := [],
        contentWindowPresent := true, flushTimeoutArmed := false } SessionEvent.fallbackFire =
      { innerReady := true, pending := [], widgetInbox := pre, hostInbox := [],
        srcdoc := none, sandboxAttr := DEFAULT_SANDBOX, memCache := [], persistPosts := [],
        contentWindowPresent := true, flushTimeoutArmed := false } := rfl
  have hnoop : ∀ st : SessionState, st.innerReady = true →
      step cfg st SessionEvent.fallbackFire = st := by
    intro st h; simp [step, h]
  refine ⟨?_, ?_, ?_, hnoop⟩
  · rw [run_append, hpre, run_cons, hfire]; rfl
  · rw [run_append, hpre, run_cons, hfire]; rfl
  · rw [run_append, hpre, run_cons, hfire, run_cons, hnoop _ rfl]; rfl

/-- Witness for C7 at a concrete input. -/
theorem c7_fallback_once_witness :
    step { flowId := none, resourceUrl := none, noCacheParam := false }
        { initialSession with innerReady := true } SessionEvent.fallbackFire =
      { initialSession with innerReady := true } ∧
    (run { flowId := none, resourceUrl := none, noCacheParam := false } initialSession
      (hostOtherEvents [5, 7] ++ [SessionEvent.fallbackFire])).widgetInbox = [5, 7] :=
  ⟨(c7_fallback_once { flowId := none, resourceUrl := none, noCacheParam := false }
      [5, 7]).2.2.2 _ rfl,
    (c7_fallback_once { flowId := none, resourceUrl := none, noCacheParam := false }
      [5, 7]).1⟩

/-! ## C10 — empty-document / empty-policy guard -/

/-- C10: `ensureCspMeta` returns the empty string on an empty document for
every policy and overwrite flag, and returns the document unchanged when the
policy is empty, even with `overwrite = true`. -/
theorem c10_empty_guard (html csp : Str) (b : Bool) :
    ensureCspMeta [] csp b = [] ∧ ensureCspMeta html [] b = html := by
  refine ⟨?_, ?_⟩ <;> simp [ensureCspMeta]

/-! ## C5 — noCache / cache_buster short-circuit -/

/-- C5: with `noCache` set, or a resource identifier containing the literal
`cache_buster` marker, the cache read reports not-found touching neither tier,
whatever the memory tier holds; the flag is never read by the
`sandbox-resource-ready` handler, whose write still populates the memory tier
and issues the persistent POST. -/
theorem c5_nocache_shortcircuit :
    (∀ (cfg : Config) (mem : List (Str × Str)) (world : Str → FetchOutcome) (u : Str),
      cfg.resourceUrl = some u →
      cfg.noCacheParam = true ∨ jsIncludes cacheBusterLit u = true →
      primeIframeFromCache cfg mem world = ⟨false, [], mem, none⟩) ∧
    (∀ (cfg : Config) (st : SessionState) (p : ResourceReadyParams) (b : Bool),
      handleResourceReady { cfg with noCacheParam := b } st p = handleResourceReady cfg st p) ∧
    (∀ (cfg : Config) (st : SessionState) (p : ResourceReadyParams) (h r : Str),
      p.html = some h → p.resource = some r → r ≠ [] →
      (handleResourceReady cfg st p).memCache =
        setCachedHtml st.memCache (namespacedKeyFor cfg r)
          (ensureCspMeta h (effectiveCspOf p) true) ∧
      (handleResourceReady cfg st p).persistPosts = st.persistPosts ++
        [persistCachedHtmlToApi r (ensureCspMeta h (effectiveCspOf p) true)
          (some (cacheNamespace cfg))]) := by
  refine ⟨?_, ?_, ?_⟩
  · intro cfg mem world u h1 h2
    unfold primeIframeFromCache
    rw [h1]
    by_cases hu : u = []
    · simp [hu]
    · have hcond : (cfg.noCacheParam || jsIncludes cacheBusterLit u) = true := by
        rcases h2 with h | h
        · rw [h]; rfl
        · rw [h]; simp
      simp only [hu, hcond]
      simp
  · intro cfg st p b
    rfl
  · intro cfg st p h r hh hr hne
    unfold handleResourceReady
    rw [hh, hr]
    simp [hne]

/-- Witness for C5 at concrete inputs. -/
theorem c5_nocache_shortcircuit_witness :
    primeIframeFromCache
        { flowId := some ("f".toList), resourceUrl := some ("ui://x".toList),
          noCacheParam := true }
        [("f::ui://x".toList, "<h1>hi</h1>".toList)] (fun _ => FetchOutcome.networkError) =
      ⟨false, [], [("f::ui://x".toList, "<h1>hi</h1>".toList)], none⟩ ∧
    (handleResourceReady
        { flowId := some ("f".toList), resourceUrl := some ("ui://x".toList),
          noCacheParam := true }
        initialSession
        { html := some ("<p>w</p>".toList), sandbox := none,
          resource := some ("ui://x".toList), csp := some ("x-csp".toList) }).persistPosts =
      [persistCachedHtmlToApi ("ui://x".toList)
        (ensureCspMeta ("<p>w</p>".toList)
          (effectiveCspOf
            { html := some ("<p>w</p>".toList), sandbox := none,
              resource := some ("ui://x".toList), csp := some ("x-csp".toList) }) true)
        (some (cacheNamespace
          { flowId := some ("f".toList), resourceUrl := some ("ui://x".toList),
            noCacheParam := true }))] := by
  constructor
  · exact c5_nocache_shortcircuit.1 _ _ _ _ rfl (Or.inl rfl)
  · have h := (c5_nocache_shortcircuit.2.2
      { flowId := some ("f".toList), resourceUrl := some ("ui://x".toList),
        noCacheParam := true }
      initialSession
      { html := some ("<p>w</p>".toList), sandbox := none,
        resource := some ("ui://x".toList), csp := some ("x-csp".toList) }
      ("<p>w</p>".toList) ("ui://x".toList) rfl rfl (by decide)).2
    rw [h]
    rfl

/-! ## C6 — two-tier read path -/

/-- C6: the sandboxed-path cache read consults the memory tier first; a hit —
the source's truthiness test, i.e. a stored *non-empty* string — returns
without touching the persistent tier or the store; a miss (no entry, or a
stored empty string, which `if (inMemory)` treats as falsy) issues one GET to
the persistent tier under the (double-encoded) namespaced path; a persistent
hit — a 2xx with non-empty body, `if (cachedHtml)` being the same truthy
test — backfills the memory tier and succeeds; and a transport error, a
non-2xx response, or an empty-body 2xx is reported as a plain miss with no
backfill (the model never raises). -/
theorem c6_two_tier_read (cfg : Config) (mem : List (Str × Str))
    (world : Str → FetchOutcome) (u : Str) (h1 : cfg.resourceUrl = some u)
    (h2 : u ≠ []) (h3 : cfg.noCacheParam = false)
    (h4 : jsIncludes cacheBusterLit u = false) :
    (∀ v, getCachedHtml mem (namespacedKeyFor cfg u) = some v → v ≠ [] →
      primeIframeFromCache cfg mem world =
        ⟨true, [CacheAccess.memRead (namespacedKeyFor cfg u)], mem,
          some (ensureCspMeta v DEFAULT_CSP)⟩) ∧
    (∀ body,
      (getCachedHtml mem (namespacedKeyFor cfg u) = none ∨
        getCachedHtml mem (namespacedKeyFor cfg u) = some []) →
      world (buildCachePath u (some (cacheNamespace cfg))) = FetchOutcome.response true body →
      body ≠ [] →
      primeIframeFromCache cfg mem world =
        ⟨true, [CacheAccess.memRead (namespacedKeyFor cfg u),
            CacheAccess.persistGet (buildCachePath u (some (cacheNamespace cfg)))],
          setCachedHtml mem (namespacedKeyFor cfg u) body,
          some (ensureCspMeta body DEFAULT_CSP)⟩) ∧
    ((getCachedHtml mem (namespacedKeyFor cfg u) = none ∨
        getCachedHtml mem (namespacedKeyFor cfg u) = some []) →
      (world (buildCachePath u (some (cacheNamespace cfg))) = FetchOutcome.networkError ∨
        (∃ body, world (buildCachePath u (some (cacheNamespace cfg))) =
          FetchOutcome.response false body) ∨
        world (buildCachePath u (some (cacheNamespace cfg))) =
          FetchOutcome.response true []) →
      primeIframeFromCache cfg mem world =
        ⟨false, [CacheAccess.memRead (namespacedKeyFor cfg u),
            CacheAccess.persistGet (buildCachePath u (some (cacheNamespace cfg)))],
          mem, none⟩) := by
  refine ⟨?_, ?_, ?_⟩
  · intro v hv hvne
    cases v with
    | nil => exact absurd rfl hvne
    | cons c cs =>
      unfold primeIframeFromCache
      rw [h1]
      simp [h2, h3, h4, hv]
  · intro body hmiss hworld hbody
    cases body with
    | nil => exact absurd rfl hbody
    | cons c cs =>
      unfold primeIframeFromCache
      rw [h1]
      rcases hmiss with hm | hm <;>
        simp [h2, h3, h4, hm, fetchCachedHtmlFromApi, hworld]
  · intro hmiss hfail
    unfold primeIframeFromCache
    rw [h1]
    rcases hmiss with hm | hm <;>
      rcases hfail with h | ⟨body, h⟩ | h <;>
        simp [h2, h3, h4, hm, fetchCachedHtmlFromApi, h]

/-- Witness for C6 at concrete inputs: a memory hit and a failing persistent
read. -/
theorem c6_two_tier_read_witness :
    primeIframeFromCache
        { flowId := some ("f".toList), resourceUrl := some ("ui://x".toList),
          noCacheParam := false }
        [("f::ui://x".toList, "<h1>c</h1>".toList)] (fun _ => FetchOutcome.networkError) =
      ⟨true, [CacheAccess.memRead ("f::ui://x".toList)],
        [("f::ui://x".toList, "<h1>c</h1>".toList)],
        some (ensureCspMeta ("<h1>c</h1>".toList) DEFAULT_CSP)⟩ ∧
    primeIframeFromCache
        { flowId := some ("f".toList), resourceUrl := some ("ui://x".toList),
          noCacheParam := false }
        [] (fun _ => FetchOutcome.networkError) =
      ⟨false, [CacheAccess.memRead ("f::ui://x".toList),
          CacheAccess.persistGet (buildCachePath ("ui://x".toList) (some ("f".toList)))],
        [], none⟩ := by
  constructor
  · exact (c6_two_tier_read _ _ _ _ rfl (by decide) rfl (by decide)).1 _ (by decide)
      (by decide)
  · have h := (c6_two_tier_read
      { flowId := some ("f".toList), resourceUrl := some ("ui://x".toList),
        noCacheParam := false }
      [] (fun _ => FetchOutcome.networkError) ("ui://x".toList) rfl (by decide) rfl
      (by decide)).2.2 (Or.inl rfl) (Or.inl rfl)
    rw [h]
    rfl

/-! ## C1 — the sandbox-resource-ready handler -/

lemma handleResourceReady_sandboxAttr (cfg : Config) (st : SessionState)
    (p : ResourceReadyParams) :
    (handleResourceReady cfg st p).sandboxAttr = sandboxValueOf p := by
  simp only [handleResourceReady]
  split
  · rfl
  · split
    · split <;> rfl
    · rfl

lemma handleResourceReady_widgetInbox (cfg : Config) (st : SessionState)
    (p : ResourceReadyParams) :
    (handleResourceReady cfg st p).widgetInbox = st.widgetInbox := by
  simp only [handleResourceReady]
  split
  · rfl
  · split
    · split <;> rfl
    · rfl

lemma handleResourceReady_pending (cfg : Config) (st : SessionState)
    (p : ResourceReadyParams) :
    (handleResourceReady cfg st p).pending = st.pending := by
  simp only [handleResourceReady]
  split
  · rfl
  · split
    · split <;> rfl
    · rfl

/-- C1 counterexample input: `params.resource` is the empty string — a
string, so the claim as stated demands a cache write under
`default::` — yet the handler skips both tier writes entirely. -/
theorem c1_counterexample :
    (handleResourceReady
        { flowId := none, resourceUrl := some ("ui://orig".toList), noCacheParam := false }
        initialSession
        { html := some ("<p>w</p>".toList), sandbox := none, resource := some [],
          csp := some ("c".toList) }).memCache = [] ∧
    (handleResourceReady
        { flowId := none, resourceUrl := some ("ui://orig".toList), noCacheParam := false }
        initialSession
        { html := some ("<p>w</p>".toList), sandbox := none, resource := some [],
          csp := some ("c".toList) }).persistPosts = [] := by
  constructor <;> rfl

/-- C1 (amended): on `sandbox-resource-ready` the handler sets the iframe
sandbox attribute from `params.sandbox` when that is a non-blank string and
to the default otherwise; exactly when `params.html` is a string it rewrites
it with the injector (`params.csp` when truthy, else the default CSP,
overwrite mode), resets readiness, assigns the result as `srcdoc`, and —
when the resource name chosen (`params.resource` when a string, else the
original `resourceUrl`) is non-empty — writes the rewritten HTML to the
memory tier and issues the fire-and-forget persistent POST under the
namespaced key; an empty or absent resource name skips both writes.  The
message never reaches the widget (queue and widget inbox untouched). -/
theorem c1_resource_ready (cfg : Config) (st : SessionState) (p : ResourceReadyParams) :
    ((∀ s, p.sandbox = some s → jsTrim s ≠ [] →
        (handleResourceReady cfg st p).sandboxAttr = s) ∧
      (p.sandbox = none → (handleResourceReady cfg st p).sandboxAttr = DEFAULT_SANDBOX) ∧
      (∀ s, p.sandbox = some s → jsTrim s = [] →
        (handleResourceReady cfg st p).sandboxAttr = DEFAULT_SANDBOX)) ∧
    (∀ h, p.html = some h →
      (handleResourceReady cfg st p).innerReady = false ∧
      (handleResourceReady cfg st p).srcdoc =
        some (ensureCspMeta h (effectiveCspOf p) true)) ∧
    ((∀ c, p.csp = some c → c ≠ [] → effectiveCspOf p = c) ∧
      (p.csp = none ∨ p.csp = some [] → effectiveCspOf p = DEFAULT_CSP)) ∧
    (∀ h, p.html = some h →
      (∀ r, p.resource = some r → r ≠ [] →
        (handleResourceReady cfg st p).memCache =
          setCachedHtml st.memCache (namespacedKeyFor cfg r)
            (ensureCspMeta h (effectiveCspOf p) true) ∧
        (handleResourceReady cfg st p).persistPosts = st.persistPosts ++
          [persistCachedHtmlToApi r (ensureCspMeta h (effectiveCspOf p) true)
            (some (cacheNamespace cfg))]) ∧
      (∀ u, p.resource = none → cfg.resourceUrl = some u → u ≠ [] →
        (handleResourceReady cfg st p).memCache =
          setCachedHtml st.memCache (namespacedKeyFor cfg u)
            (ensureCspMeta h (effectiveCspOf p) true) ∧
        (handleResourceReady cfg st p).persistPosts = st.persistPosts ++
          [persistCachedHtmlToApi u (ensureCspMeta h (effectiveCspOf p) true)
            (some (cacheNamespace cfg))]) ∧
      (p.resource = some [] ∨ (p.resource = none ∧
          (cfg.resourceUrl = none ∨ cfg.resourceUrl = some [])) →
        (handleResourceReady cfg st p).memCache = st.memCache ∧
        (handleResourceReady cfg st p).persistPosts = st.persistPosts)) ∧
    (p.html = none →
      (handleResourceReady cfg st p).innerReady = st.innerReady ∧
      (handleResourceReady cfg st p).srcdoc = st.srcdoc ∧
      (handleResourceReady cfg st p).memCache = st.memCache ∧
      (handleResourceReady cfg st p).persistPosts = st.persistPosts) ∧
    (handleResourceReady cfg st p).widgetInbox = st.widgetInbox ∧
    (handleResourceReady cfg st p).pending = st.pending := by
  refine ⟨⟨?_, ?_, ?_⟩, ?_, ⟨?_, ?_⟩, ?_, ?_,
    handleResourceReady_widgetInbox cfg st p, handleResourceReady_pending cfg st p⟩
  · intro s hs hne
    rw [handleResourceReady_sandboxAttr]
    unfold sandboxValueOf
    rw [hs]
    simp [hne]
  · intro hs
    rw [handleResourceReady_sandboxAttr]
    unfold sandboxValueOf
    rw [hs]
  · intro s hs hblank
    rw [handleResourceReady_sandboxAttr]
    unfold sandboxValueOf
    rw [hs]
    simp [hblank]
  · intro h hh
    simp only [handleResourceReady, hh]
    constructor
    · split
      · split <;> rfl
      · rfl
    · split
      · split <;> rfl
      · rfl
  · intro c hc hne
    unfold effectiveCspOf
    rw [hc]
    simp [hne]
  · intro hc
    unfold effectiveCspOf
    rcases hc with h | h <;> rw [h] <;> rfl
  · intro h hh
    refine ⟨?_, ?_, ?_⟩
    · intro r hr hne
      simp only [handleResourceReady, hh, hr]
      simp [hne]
    · intro u hr hu hne
      simp only [handleResourceReady, hh, hr, hu]
      simp [hne]
    · intro hcase
      rcases hcase with h1 | ⟨h1, h2⟩
      · simp only [handleResourceReady, hh, h1]
        refine ⟨?_, ?_⟩ <;> trivial
      · rcases h2 with h2 | h2 <;> simp only [handleResourceReady, hh, h1, h2] <;>
          (refine ⟨?_, ?_⟩ <;> trivial)
  · intro hh
    simp only [handleResourceReady, hh]
    refine ⟨?_, ?_, ?_, ?_⟩ <;> trivial

/-- Witness for C1 at a concrete input (html and resource both present and
non-empty). -/
theorem c1_resource_ready_witness :
    (handleResourceReady
        { flowId := some ("f1".toList), resourceUrl := some ("ui://orig".toList),
          noCacheParam := false }
        initialSession
        { html := some ("<p>w</p>".toList), sandbox := some ("allow-forms".toList),
          resource := some ("ui://x".toList), csp := some ("c1".toList) }).sandboxAttr =
      "allow-forms".toList ∧
    (handleResourceReady
        { flowId := some ("f1".toList), resourceUrl := some ("ui://orig".toList),
          noCacheParam := false }
        initialSession
        { html := some ("<p>w</p>".toList), sandbox := some ("allow-forms".toList),
          resource := some ("ui://x".toList), csp := some ("c1".toList) }).srcdoc =
      some (ensureCspMeta ("<p>w</p>".toList)
        (effectiveCspOf
          { html := some ("<p>w</p>".toList), sandbox := some ("allow-forms".toList),
            resource := some ("ui://x".toList), csp := some ("c1".toList) }) true) := by
  constructor
  · exact (c1_resource_ready _ _ _).1.1 _ rfl (by decide)
  · exact ((c1_resource_ready _ _ _).2.1 _ rfl).2

/-! ## C8 — the persistent cache GET contract -/

/-- C8 counterexample: `"%"` is undecodable (`decodeURIComponent` throws on
it), yet the handler does not answer 400 — decoding falls back to the raw
segment and the GET proceeds to a 404 on an empty store. -/
theorem c8_counterexample :
    decodeURIComponentOpt ("%".toList) = none ∧
    (handler []
        { origin := "http://h".toList, pathname := "/api/cache/%".toList,
          method := "GET".toList, contentType := none, jsonHtml := none,
          bodyText := [] }).1.status = 404 := by
  constructor <;> rfl

/-- C8 (amended): a GET whose cache URL has a stored entry is answered 200
with the cached HTML and the fixed `Content-Type`/`Cache-Control` headers; a
GET with no entry is answered 404; a request whose path yields no usable
segment is answered 400; an undecodable `{encodedKey}` is *not* rejected —
`getCacheKey` falls back to the raw segment and the request proceeds
normally. -/
theorem c8_get_contract (store : List (Str × Str)) (req : ApiRequest) :
    (∀ k html, (getCacheKey req).1 = some k → k ≠ [] → req.method = "GET".toList →
      getCachedHtml store (getCacheKey req).2 = some html →
      (handler store req).1 =
        ⟨200, some ctHtmlValue, some ccValue, none, html⟩) ∧
    (∀ k, (getCacheKey req).1 = some k → k ≠ [] → req.method = "GET".toList →
      getCachedHtml store (getCacheKey req).2 = none →
      (handler store req).1.status = 404) ∧
    ((getCacheKey req).1 = none → (handler store req).1.status = 400) ∧
    (∀ r, rawSegmentOf (splitOnSlash req.pathname) = some r →
      decodeURIComponentOpt r = none → (getCacheKey req).1 = some r) := by
  refine ⟨?_, ?_, ?_, ?_⟩
  · intro k html hk hne hm hlook
    simp only [handler, hk, hm, hlook]
    simp [hne]
  · intro k hk hne hm hlook
    simp only [handler, hk, hm, hlook]
    simp [hne]
  · intro hk
    simp only [handler, hk]
    rfl
  · intro r hraw hdec
    simp only [getCacheKey, hraw, hdec]
    rfl

/-- Witness for C8 at concrete inputs: a stored entry served with the fixed
headers, and a miss answered 404. -/
theorem c8_get_contract_witness :
    (handler
        [(("http://h".toList : Str) ++ "/api/cache/".toList ++
            encodeURIComponent ("k1".toList), "<p>cached</p>".toList)]
        { origin := "http://h".toList, pathname := "/api/cache/k1".toList,
          method := "GET".toList, contentType := none, jsonHtml := none,
          bodyText := [] }).1 =
      ⟨200, some ctHtmlValue, some ccValue, none, "<p>cached</p>".toList⟩ ∧
    (handler []
        { origin := "http://h".toList, pathname := "/api/cache/k1".toList,
          method := "GET".toList, contentType := none, jsonHtml := none,
          bodyText := [] }).1.status = 404 := by
  constructor
  · exact (c8_get_contract _ _).1 ("k1".toList) _ rfl (by decide) rfl (by decide)
  · exact (c8_get_contract _ _).2.1 ("k1".toList) rfl (by decide) rfl (by decide)

/-! ## Character-level lemmas for the regex machinery -/

lemma char_toNat_inj {a b : Char} (h : a.toNat = b.toNat) : a = b := by
  have ha := Char.ofNat_toNat a
  rw [h, Char.ofNat_toNat] at ha
  exact ha.symm

/-- `lowNat` moves nothing onto a code point outside the ASCII letter range. -/
lemma lowNat_eq_iff {t : Nat} (ht : t < 65 ∨ 122 < t) (n : Nat) :
    lowNat n = t ↔ n = t := by
  unfold lowNat
  split <;> omega

lemma ciEq_concrete_iff {p : Char} (hp : p.toNat < 65 ∨ 122 < p.toNat)
    (hp2 : lowNat p.toNat = p.toNat) (c : Char) : ciEq p c = true ↔ c = p := by
  unfold ciEq
  rw [beq_iff_eq, hp2]
  constructor
  · intro h
    exact char_toNat_inj ((lowNat_eq_iff hp c.toNat).mp h.symm)
  · intro h
    rw [h]
    exact hp2.symm

lemma ciEq_lt_iff (c : Char) : ciEq '<' c = true ↔ c = '<' :=
  ciEq_concrete_iff (by decide) (by decide) c

lemma startsWithCI_cons (q c : Char) (ps cs : Str) :
    startsWithCI (q :: ps) (c :: cs) = (ciEq q c && startsWithCI ps cs) := rfl

lemma ciEq_lt_false {c : Char} (h : c ≠ '<') : ciEq '<' c = false := by
  cases hb : ciEq '<' c
  · rfl
  · exact absurd ((ciEq_lt_iff c).mp hb) h

/-! ## splitAtGt lemmas -/

lemma splitAtGt_cons (c : Char) (cs : Str) :
    splitAtGt (c :: cs) =
      if c = '>' then some ([], cs)
      else
        match splitAtGt cs with
        | some (a, b) => some (c :: a, b)
        | none => none := rfl

lemma splitAtGt_spec : ∀ {s x y : Str}, splitAtGt s = some (x, y) →
    s = x ++ '>' :: y ∧ '>' ∉ x := by
  intro s
  induction s with
  | nil => intro x y h; simp [splitAtGt] at h
  | cons c cs ih =>
    intro x y h
    rw [splitAtGt_cons] at h
    by_cases hc : c = '>'
    · rw [if_pos hc] at h
      simp only [Option.some.injEq, Prod.mk.injEq] at h
      obtain ⟨rfl, rfl⟩ := h
      subst hc
      exact ⟨rfl, by simp⟩
    · rw [if_neg hc] at h
      cases hsp : splitAtGt cs with
      | none => rw [hsp] at h; exact absurd h (by simp)
      | some p =>
        obtain ⟨a, b⟩ := p
        rw [hsp] at h
        simp only [Option.some.injEq, Prod.mk.injEq] at h
        obtain ⟨rfl, rfl⟩ := h
        obtain ⟨h1, h2⟩ := ih hsp
        refine ⟨by rw [List.cons_append, ← h1], ?_⟩
        intro hmem
        rcases List.mem_cons.mp hmem with h3 | h3
        · exact hc h3.symm
        · exact h2 h3

lemma splitAtGt_isSome_iff : ∀ s : Str, (splitAtGt s).isSome = true ↔ '>' ∈ s := by
  intro s
  induction s with
  | nil => simp [splitAtGt]
  | cons c cs ih =>
    rw [splitAtGt_cons]
    by_cases hc : c = '>'
    · simp [hc]
    · rw [if_neg hc]
      have hne : ¬ '>' = c := fun h => hc h.symm
      cases hsp : splitAtGt cs with
      | none =>
        rw [hsp] at ih
        have h2 : '>' ∉ cs := fun hm => by
          have := ih.mpr hm
          simp at this
        simp [hne, h2]
      | some p =>
        obtain ⟨a, b⟩ := p
        rw [hsp] at ih
        have h2 : '>' ∈ cs := ih.mp rfl
        simp [h2]

lemma splitAtGt_append_left : ∀ {a : Str}, '>' ∉ a → ∀ b : Str,
    splitAtGt (a ++ b) = (splitAtGt b).map (fun p => (a ++ p.1, p.2)) := by
  intro a
  induction a with
  | nil =>
    intro _ b
    rw [List.nil_append]
    cases hb : splitAtGt b with
    | none => rfl
    | some p => rfl
  | cons c cs ih =>
    intro ha b
    have hc : c ≠ '>' := fun h => ha (by simp [h])
    have hcs : '>' ∉ cs := fun h => ha (by simp [h])
    rw [List.cons_append, splitAtGt_cons, if_neg hc, ih hcs b]
    cases hb : splitAtGt b with
    | none => rfl
    | some p => rfl

lemma splitAtGt_exact {a : Str} (ha : '>' ∉ a) (b : Str) :
    splitAtGt (a ++ '>' :: b) = some (a, b) := by
  rw [splitAtGt_append_left ha]
  have h0 : splitAtGt ('>' :: b) = some ([], b) := by rw [splitAtGt_cons]; simp
  rw [h0]
  simp

/-! ## Lowered keys and case-insensitive congruence -/

/-- The case-folded code points of a string: what a case-insensitive match
actually sees. -/
def lowKey (s : Str) : List Nat := s.map fun c => lowNat c.toNat

lemma lowKey_nil : lowKey [] = [] := rfl

lemma lowKey_cons (c : Char) (s : Str) :
    lowKey (c :: s) = lowNat c.toNat :: lowKey s := rfl

lemma lowKey_append (a b : Str) : lowKey (a ++ b) = lowKey a ++ lowKey b := by
  simp [lowKey]

lemma lowKey_drop (n : Nat) (s : Str) : lowKey (s.drop n) = (lowKey s).drop n := by
  simp [lowKey, List.map_drop]

lemma eq_concrete_of_lowNat {p : Char} (hp : p.toNat < 65 ∨ 122 < p.toNat)
    (hp2 : lowNat p.toNat = p.toNat) {c : Char} (h : lowNat c.toNat = lowNat p.toNat) :
    c = p := by
  rw [hp2] at h
  exact char_toNat_inj ((lowNat_eq_iff hp c.toNat).mp h)

lemma gt_mem_of_lowKey {a b : Str} (h : lowKey a = lowKey b) (hmem : '>' ∈ b) :
    '>' ∈ a := by
  have h62 : (62 : Nat) ∈ lowKey b :=
    List.mem_map.mpr ⟨'>', hmem, by decide⟩
  rw [← h] at h62
  obtain ⟨c, hc, hcv⟩ := List.mem_map.mp h62
  have hce : c = '>' := eq_concrete_of_lowNat (by decide) (by decide) (by rw [hcv]; decide)
  rwa [hce] at hc

lemma startsWithCI_congr (p : Str) : ∀ {x y : Str}, lowKey x = lowKey y →
    startsWithCI p x = startsWithCI p y := by
  induction p with
  | nil => intro x y _; rfl
  | cons q ps ih =>
    intro x y h
    cases x with
    | nil =>
      cases y with
      | nil => rfl
      | cons d ys => simp [lowKey] at h
    | cons c xs =>
      cases y with
      | nil => simp [lowKey] at h
      | cons d ys =>
        rw [lowKey_cons, lowKey_cons, List.cons.injEq] at h
        obtain ⟨hhead, htail⟩ := h
        show (ciEq q c && startsWithCI ps xs) = (ciEq q d && startsWithCI ps ys)
        have hc : ciEq q c = ciEq q d := by
          unfold ciEq
          rw [hhead]
        rw [ih htail, hc]

lemma isQuote_congr {c d : Char} (h : lowNat c.toNat = lowNat d.toNat) :
    isQuote c = isQuote d := by
  have h34 : (c = '"') ↔ (d = '"') := by
    constructor <;> intro he <;> subst he
    · exact eq_concrete_of_lowNat (by decide) (by decide) h.symm
    · exact eq_concrete_of_lowNat (by decide) (by decide) h
  have h39 : (c = '\'') ↔ (d = '\'') := by
    constructor <;> intro he <;> subst he
    · exact eq_concrete_of_lowNat (by decide) (by decide) h.symm
    · exact eq_concrete_of_lowNat (by decide) (by decide) h
  simp only [isQuote, h34, h39]

lemma lowKey_length {x y : Str} (h : lowKey x = lowKey y) : x.length = y.length := by
  have := congrArg List.length h
  simpa [lowKey] using this

lemma splitAtGt_lowKey : ∀ {x y : Str}, lowKey x = lowKey y →
    (splitAtGt x = none ∧ splitAtGt y = none) ∨
      ∃ a b a' b', splitAtGt x = some (a, b) ∧ splitAtGt y = some (a', b') ∧
        lowKey a = lowKey a' ∧ lowKey b = lowKey b' := by
  intro x
  induction x with
  | nil =>
    intro y h
    cases y with
    | nil => exact Or.inl ⟨rfl, rfl⟩
    | cons d ys => simp [lowKey] at h
  | cons c cs ih =>
    intro y h
    cases y with
    | nil => simp [lowKey] at h
    | cons d ys =>
      rw [lowKey_cons, lowKey_cons, List.cons.injEq] at h
      obtain ⟨hhead, htail⟩ := h
      by_cases hc : c = '>'
      · have hd : d = '>' := by
          subst hc
          exact eq_concrete_of_lowNat (by decide) (by decide) hhead.symm
        refine Or.inr ⟨[], cs, [], ys, ?_, ?_, rfl, htail⟩
        · rw [splitAtGt_cons, if_pos hc]
        · rw [splitAtGt_cons, if_pos hd]
      · have hd : d ≠ '>' := fun he => hc (by
          subst he
          exact eq_concrete_of_lowNat (by decide) (by decide) hhead)
        rcases ih htail with ⟨h1, h2⟩ | ⟨a, b, a', b', h1, h2, h3, h4⟩
        · refine Or.inl ⟨?_, ?_⟩
          · rw [splitAtGt_cons, if_neg hc, h1]
          · rw [splitAtGt_cons, if_neg hd, h2]
        · refine Or.inr ⟨c :: a, b, d :: a', b', ?_, ?_, ?_, h4⟩
          · rw [splitAtGt_cons, if_neg hc, h1]
          · rw [splitAtGt_cons, if_neg hd, h2]
          · rw [lowKey_cons, lowKey_cons, hhead, h3]

lemma cspCoreAt_congr : ∀ {x y : Str}, lowKey x = lowKey y → cspCoreAt x = cspCoreAt y := by
  intro x y h
  unfold cspCoreAt
  rw [startsWithCI_congr _ h]
  have hd : lowKey (x.drop 11) = lowKey (y.drop 11) := by
    rw [lowKey_drop, lowKey_drop, h]
  cases hx : x.drop 11 with
  | nil =>
    cases hy : y.drop 11 with
    | nil => rfl
    | cons d t => rw [hx, hy] at hd; simp [lowKey] at hd
  | cons q t =>
    cases hy : y.drop 11 with
    | nil => rw [hx, hy] at hd; simp [lowKey] at hd
    | cons q' t' =>
      rw [hx, hy, lowKey_cons, lowKey_cons, List.cons.injEq] at hd
      obtain ⟨hq, ht⟩ := hd
      dsimp only
      rw [isQuote_congr hq, startsWithCI_congr _ ht]
      have hd23 : lowKey (t.drop 23) = lowKey (t'.drop 23) := by
        rw [lowKey_drop, lowKey_drop, ht]
      cases h23 : t.drop 23 with
      | nil =>
        cases h23' : t'.drop 23 with
        | nil => rfl
        | cons e u => rw [h23, h23'] at hd23; simp [lowKey] at hd23
      | cons e u =>
        cases h23' : t'.drop 23 with
        | nil => rw [h23, h23'] at hd23; simp [lowKey] at hd23
        | cons e' u' =>
          rw [h23, h23', lowKey_cons, lowKey_cons, List.cons.injEq] at hd23
          dsimp only
          rw [isQuote_congr hd23.1]

lemma containsCspCore_congr : ∀ {x y : Str}, lowKey x = lowKey y →
    containsCspCore x = containsCspCore y := by
  intro x
  induction x with
  | nil =>
    intro y h
    cases y with
    | nil => rfl
    | cons d ys => simp [lowKey] at h
  | cons c cs ih =>
    intro y h
    cases y with
    | nil => simp [lowKey] at h
    | cons d ys =>
      have htail : lowKey cs = lowKey ys := by
        rw [lowKey_cons, lowKey_cons, List.cons.injEq] at h
        exact h.2
      show (cspCoreAt (c :: cs) || containsCspCore cs) =
        (cspCoreAt (d :: ys) || containsCspCore ys)
      rw [cspCoreAt_congr h, ih htail]

lemma cspMatchHere_isSome_congr : ∀ {x y : Str}, lowKey x = lowKey y →
    (cspMatchHere x).isSome = (cspMatchHere y).isSome := by
  intro x y h
  unfold cspMatchHere
  rw [startsWithCI_congr _ h]
  cases hsw : startsWithCI ("<meta".toList) y with
  | false => simp
  | true =>
    have hd : lowKey (x.drop 5) = lowKey (y.drop 5) := by
      rw [lowKey_drop, lowKey_drop, h]
    rcases splitAtGt_lowKey hd with ⟨h1, h2⟩ | ⟨a, b, a', b', h1, h2, h3, _⟩
    · rw [h1, h2]
    · rw [h1, h2]
      cases ha : a with
      | nil =>
        cases ha' : a' with
        | nil => rfl
        | cons e u => rw [ha, ha'] at h3; simp [lowKey] at h3
      | cons e u =>
        cases ha' : a' with
        | nil => rw [ha, ha'] at h3; simp [lowKey] at h3
        | cons e' u' =>
          have hu : lowKey u = lowKey u' := by
            rw [ha, ha', lowKey_cons, lowKey_cons, List.cons.injEq] at h3
            exact h3.2
          dsimp only
          rw [containsCspCore_congr hu]
          cases containsCspCore u' <;> simp

/-! ## Boundary lemmas: a match is decided by the text up to the first `>` -/

lemma startsWithCI_true_length : ∀ {p s : Str}, startsWithCI p s = true →
    p.length ≤ s.length := by
  intro p
  induction p with
  | nil => intro s _; simp
  | cons q ps ih =>
    intro s h
    cases s with
    | nil => exact absurd h (by simp [startsWithCI])
    | cons c cs =>
      have h2 : startsWithCI ps cs = true := by
        have := h
        simp only [startsWithCI, Bool.and_eq_true] at this
        exact this.2
      simpa using Nat.succ_le_succ (ih h2)

lemma startsWithCI_boundary_false : ∀ {p : Str}, (∀ c ∈ p, ciEq c '>' = false) →
    ∀ {w : Str} (x : Str), w.length < p.length →
      startsWithCI p (w ++ '>' :: x) = false := by
  intro p
  induction p with
  | nil => intro _ w x h; simp at h
  | cons q ps ih =>
    intro hp w x hlen
    cases w with
    | nil =>
      show (ciEq q '>' && startsWithCI ps x) = false
      rw [hp q (by simp)]
      rfl
    | cons c ws =>
      rw [List.cons_append, startsWithCI_cons,
        ih (fun c hc => hp c (by simp [hc])) x (by simpa using Nat.lt_of_succ_lt_succ hlen)]
      simp

lemma startsWithCI_boundary : ∀ {p : Str}, (∀ c ∈ p, ciEq c '>' = false) →
    ∀ {w w' : Str}, lowKey w = lowKey w' → ∀ x y : Str,
      startsWithCI p (w ++ '>' :: x) = startsWithCI p (w' ++ '>' :: y) := by
  intro p
  induction p with
  | nil => intro _ w w' _ x y; rfl
  | cons q ps ih =>
    intro hp w w' h x y
    cases w with
    | nil =>
      cases w' with
      | nil =>
        show (ciEq q '>' && _) = (ciEq q '>' && _)
        rw [hp q (by simp)]
        rfl
      | cons d ys => simp [lowKey] at h
    | cons c ws =>
      cases w' with
      | nil => simp [lowKey] at h
      | cons d ys =>
        rw [lowKey_cons, lowKey_cons, List.cons.injEq] at h
        obtain ⟨hhead, htail⟩ := h
        rw [List.cons_append, List.cons_append, startsWithCI_cons, startsWithCI_cons]
        have hc : ciEq q c = ciEq q d := by
          unfold ciEq
          rw [hhead]
        rw [hc, ih (fun c hc => hp c (by simp [hc])) htail x y]

lemma cspMatchHere_boundary {w w' : Str} (h : lowKey w = lowKey w') (hw : '>' ∉ w)
    (x y : Str) :
    (cspMatchHere (w ++ '>' :: x)).isSome = (cspMatchHere (w' ++ '>' :: y)).isSome := by
  have hw' : '>' ∉ w' := fun hm => hw (gt_mem_of_lowKey h hm)
  have hp : ∀ c ∈ ("<meta".toList : Str), ciEq c '>' = false := by decide
  unfold cspMatchHere
  rw [startsWithCI_boundary hp h x y]
  cases hsw : startsWithCI ("<meta".toList) (w' ++ '>' :: y) with
  | false => simp
  | true =>
    have hlen' : 5 ≤ w'.length := by
      by_contra hlt
      rw [startsWithCI_boundary_false hp y (by simpa using Nat.lt_of_not_le hlt)] at hsw
      exact Bool.noConfusion hsw
    have hlen : 5 ≤ w.length := by
      rw [lowKey_length h]
      exact hlen'
    rw [List.drop_append_of_le_length hlen, List.drop_append_of_le_length hlen']
    have hwd : '>' ∉ w.drop 5 := fun hm => hw (List.mem_of_mem_drop hm)
    have hwd' : '>' ∉ w'.drop 5 := fun hm => hw' (List.mem_of_mem_drop hm)
    rw [splitAtGt_exact hwd x, splitAtGt_exact hwd' y]
    have hkd : lowKey (w.drop 5) = lowKey (w'.drop 5) := by
      rw [lowKey_drop, lowKey_drop, h]
    cases hx : w.drop 5 with
    | nil =>
      cases hy : w'.drop 5 with
      | nil => rfl
      | cons e u => rw [hx, hy] at hkd; simp [lowKey] at hkd
    | cons e u =>
      cases hy : w'.drop 5 with
      | nil => rw [hx, hy] at hkd; simp [lowKey] at hkd
      | cons e' u' =>
        have hu : lowKey u = lowKey u' := by
          rw [hx, hy, lowKey_cons, lowKey_cons, List.cons.injEq] at hkd
          exact hkd.2
        dsimp only
        rw [containsCspCore_congr hu]
        cases containsCspCore u' <;> simp

/-- A match starting at any position of the common prefix `t` is decided
identically whether `t` is followed by `u ++ '>' :: x` or by the
case-equivalent `v ++ '>' :: y`. -/
lemma cspMatchHere_transfer {t u v : Str} (hlow : lowKey u = lowKey v) (hu : '>' ∉ u)
    (x y : Str) :
    (cspMatchHere (t ++ (u ++ '>' :: x))).isSome =
      (cspMatchHere (t ++ (v ++ '>' :: y))).isSome := by
  by_cases hgt : '>' ∈ t
  · obtain ⟨⟨α, β⟩, hsp⟩ := Option.isSome_iff_exists.mp ((splitAtGt_isSome_iff t).mpr hgt)
    obtain ⟨ht, hα⟩ := splitAtGt_spec hsp
    rw [ht]
    have e1 : (α ++ '>' :: β) ++ (u ++ '>' :: x) = α ++ '>' :: (β ++ (u ++ '>' :: x)) := by
      simp
    have e2 : (α ++ '>' :: β) ++ (v ++ '>' :: y) = α ++ '>' :: (β ++ (v ++ '>' :: y)) := by
      simp
    rw [e1, e2]
    exact cspMatchHere_boundary rfl hα _ _
  · have e1 : t ++ (u ++ '>' :: x) = (t ++ u) ++ '>' :: x := by simp
    have e2 : t ++ (v ++ '>' :: y) = (t ++ v) ++ '>' :: y := by simp
    rw [e1, e2]
    refine cspMatchHere_boundary ?_ ?_ x y
    · rw [lowKey_append, lowKey_append, hlow]
    · intro hm
      rcases List.mem_append.mp hm with hm | hm
      · exact hgt hm
      · exact hu hm

/-! ## escapeHtmlAttr lemmas -/

/-- What one input character contributes to `escapeHtmlAttr`'s output. -/
def escChunk (c : Char) : Str :=
  if c = '&' then "&amp;".toList
  else if c = '"' then "&quot;".toList
  else if c = '<' then "&lt;".toList
  else if c = '>' then "&gt;".toList
  else [c]

lemma replaceAllChar_append (c : Char) (r : Str) : ∀ x y : Str,
    replaceAllChar c r (x ++ y) = replaceAllChar c r x ++ replaceAllChar c r y := by
  intro x y
  induction x with
  | nil => rfl
  | cons d ds ih =>
    show (if d = c then r else [d]) ++ replaceAllChar c r (ds ++ y) = _
    rw [ih]
    show _ = ((if d = c then r else [d]) ++ replaceAllChar c r ds) ++ _
    rw [List.append_assoc]

lemma escapeHtmlAttr_eq_flatMap : ∀ v : Str, escapeHtmlAttr v = v.flatMap escChunk := by
  intro v
  induction v with
  | nil => rfl
  | cons c v ih =>
    unfold escapeHtmlAttr at *
    rw [show replaceAllChar '&' ("&amp;".toList) (c :: v) =
      (if c = '&' then "&amp;".toList else [c]) ++ replaceAllChar '&' ("&amp;".toList) v
      from rfl]
    rw [replaceAllChar_append, replaceAllChar_append, replaceAllChar_append, ih,
      List.flatMap_cons]
    congr 1
    by_cases h1 : c = '&'
    · subst h1; rfl
    · by_cases h2 : c = '"'
      · subst h2; decide
      · by_cases h3 : c = '<'
        · subst h3; decide
        · by_cases h4 : c = '>'
          · subst h4; decide
          · simp [replaceAllChar, escChunk, h1, h2, h3, h4]

lemma gt_not_mem_escape (v : Str) : '>' ∉ escapeHtmlAttr v := by
  rw [escapeHtmlAttr_eq_flatMap]
  intro hm
  obtain ⟨c, _, hd⟩ := List.mem_flatMap.mp hm
  unfold escChunk at hd
  by_cases h1 : c = '&'
  · rw [if_pos h1] at hd; exact absurd hd (by decide)
  · rw [if_neg h1] at hd
    by_cases h2 : c = '"'
    · rw [if_pos h2] at hd; exact absurd hd (by decide)
    · rw [if_neg h2] at hd
      by_cases h3 : c = '<'
      · rw [if_pos h3] at hd; exact absurd hd (by decide)
      · rw [if_neg h3] at hd
        by_cases h4 : c = '>'
        · rw [if_pos h4] at hd; exact absurd hd (by decide)
        · rw [if_neg h4] at hd
          exact h4 (List.mem_singleton.mp hd).symm

lemma lt_not_mem_escape (v : Str) : '<' ∉ escapeHtmlAttr v := by
  rw [escapeHtmlAttr_eq_flatMap]
  intro hm
  obtain ⟨c, _, hd⟩ := List.mem_flatMap.mp hm
  unfold escChunk at hd
  by_cases h1 : c = '&'
  · rw [if_pos h1] at hd; exact absurd hd (by decide)
  · rw [if_neg h1] at hd
    by_cases h2 : c = '"'
    · rw [if_pos h2] at hd; exact absurd hd (by decide)
    · rw [if_neg h2] at hd
      by_cases h3 : c = '<'
      · rw [if_pos h3] at hd; exact absurd hd (by decide)
      · rw [if_neg h3] at hd
        by_cases h4 : c = '>'
        · rw [if_pos h4] at hd; exact absurd hd (by decide)
        · rw [if_neg h4] at hd
          exact h3 (List.mem_singleton.mp hd).symm

lemma dollar_not_mem_escape {v : Str} (h : '$' ∉ v) : '$' ∉ escapeHtmlAttr v := by
  rw [escapeHtmlAttr_eq_flatMap]
  intro hm
  obtain ⟨c, hc, hd⟩ := List.mem_flatMap.mp hm
  unfold escChunk at hd
  by_cases h1 : c = '&'
  · rw [if_pos h1] at hd; exact absurd hd (by decide)
  · rw [if_neg h1] at hd
    by_cases h2 : c = '"'
    · rw [if_pos h2] at hd; exact absurd hd (by decide)
    · rw [if_neg h2] at hd
      by_cases h3 : c = '<'
      · rw [if_pos h3] at hd; exact absurd hd (by decide)
      · rw [if_neg h3] at hd
        by_cases h4 : c = '>'
        · rw [if_pos h4] at hd; exact absurd hd (by decide)
        · rw [if_neg h4] at hd
          have hce : c = '$' := (List.mem_singleton.mp hd).symm
          rw [hce] at hc
          exact h hc

/-! ## getSubstitution lemmas -/

lemma getSubstitution_nil (m b a : Str) (caps : List Str) :
    getSubstitution m b a caps [] = [] := by
  simp [getSubstitution]

lemma getSubstitution_cons_ne (m b a : Str) (caps : List Str) {c : Char} (t : Str)
    (hc : c ≠ '$') :
    getSubstitution m b a caps (c :: t) = c :: getSubstitution m b a caps t := by
  rw [getSubstitution.eq_def]
  split <;> simp_all

lemma getSubstitution_no_dollar (m b a : Str) (caps : List Str) : ∀ {t : Str},
    '$' ∉ t → getSubstitution m b a caps t = t := by
  intro t
  induction t with
  | nil => intro _; exact getSubstitution_nil m b a caps
  | cons c cs ih =>
    intro h
    have hc : c ≠ '$' := fun he => h (by simp [he])
    rw [getSubstitution_cons_ne m b a caps cs hc, ih (fun hm => h (by simp [hm]))]

lemma getSubstitution_append_no_dollar (m b a : Str) (caps : List Str) {x : Str}
    (hx : '$' ∉ x) (y : Str) :
    getSubstitution m b a caps (x ++ y) = x ++ getSubstitution m b a caps y := by
  induction x with
  | nil => rfl
  | cons c cs ih =>
    have hc : c ≠ '$' := fun he => hx (by simp [he])
    rw [List.cons_append, getSubstitution_cons_ne m b a caps _ hc,
      ih (fun hm => hx (by simp [hm]))]
    rfl

lemma getSubstitution_dollar_one (m b a : Str) (cap : Str) {c2 : Char} (t2 : Str)
    (h2 : digitVal? c2 = none) :
    getSubstitution m b a [cap] ('$' :: '1' :: c2 :: t2) =
      cap ++ getSubstitution m b a [cap] (c2 :: t2) := by
  have h1 : digitVal? '1' = some 1 := by decide
  rw [getSubstitution.eq_def]
  simp [h1, h2]

lemma digit_ne_gt {c : Char} {v : Nat} (h : digitVal? c = some v) : c ≠ '>' := by
  intro he
  subst he
  rw [show digitVal? '>' = none from by decide] at h
  exact Option.noConfusion h

set_option maxHeartbeats 1000000 in
/-- `getSubstitution` never erases a `'>'`: every `'>'` of the template
survives into the output (the `$`-sequences only consume `$`, digits and the
four marker characters, none of which is `'>'`). -/
lemma gt_mem_getSubstitution (m b a : Str) (caps : List Str) :
    ∀ t : Str, '>' ∈ t → '>' ∈ getSubstitution m b a caps t := by
  apply getSubstitution.induct m b a caps
    (motive := fun t => '>' ∈ t → '>' ∈ getSubstitution m b a caps t)
  all_goals intros
  all_goals try (solve | simp_all [getSubstitution])
  case case7 =>
    rename_i c1 hn1 hn2 hn3 hn4 v1 c2 t2 hd1 v2 hd2 hr ih hm
    rw [getSubstitution.eq_def]
    split <;> simp_all
    case h_7 =>
      rename_i heq
      obtain ⟨he1, he2⟩ := heq
      subst he2
      dsimp only
      rw [hd2]
      dsimp only
      rw [if_pos hr]
      rcases hm with h | h
      · exact absurd h.symm (digit_ne_gt hd1)
      · rcases List.mem_cons.mp h with h2 | h2
        · exact absurd h2.symm (digit_ne_gt hd2)
        · exact List.mem_append.mpr (Or.inr (ih h2))
    case h_8 =>
      rename_i hc1 hc2 heq
      exact absurd heq.2.symm (hc2 c1 (c2 :: t2) heq.1.symm)
  case case8 =>
    rename_i c1 hn1 hn2 hn3 hn4 v1 c2 t2 hd1 v2 hd2 hnr hr1 ih hm
    rw [getSubstitution.eq_def]
    split <;> simp_all
    case h_7 =>
      rename_i heq
      obtain ⟨he1, he2⟩ := heq
      subst he2
      dsimp only
      rw [hd2]
      dsimp only
      have hnr2 : ¬(1 ≤ 10 * v1 + v2 ∧ 10 * v1 + v2 ≤ caps.length) := by
        intro hcon
        have := hnr hcon.1
        omega
      rw [if_neg hnr2, if_pos hr1]
      rcases hm with h | h
      · exact absurd h.symm (digit_ne_gt hd1)
      · exact List.mem_append.mpr (Or.inr (ih (List.mem_cons.mp h)))
    case h_8 =>
      rename_i hc1 hc2 heq
      exact absurd heq.2.symm (hc2 c1 (c2 :: t2) heq.1.symm)
  case case9 =>
    rename_i c1 hn1 hn2 hn3 hn4 v1 c2 t2 hd1 v2 hd2 hnr hnr1 ih hm
    rw [getSubstitution.eq_def]
    split <;> simp_all
    case h_7 =>
      rename_i heq
      obtain ⟨he1, he2⟩ := heq
      subst he2
      dsimp only
      rw [hd2]
      dsimp only
      have hnr2 : ¬(1 ≤ 10 * v1 + v2 ∧ 10 * v1 + v2 ≤ caps.length) := by
        intro hcon
        have := hnr hcon.1
        omega
      have hnr12 : ¬(1 ≤ v1 ∧ v1 ≤ caps.length) := by
        intro hcon
        have := hnr1 hcon.1
        omega
      rw [if_neg hnr2, if_neg hnr12]
      rcases hm with h | h
      · exact absurd h.symm (digit_ne_gt hd1)
      · exact List.mem_cons_of_mem _ (ih (Or.inr (List.mem_cons.mp h)))
    case h_8 =>
      rename_i hc1 hc2 heq
      exact absurd heq.2.symm (hc2 c1 (c2 :: t2) heq.1.symm)
  case case10 =>
    rename_i c1 hn1 hn2 hn3 hn4 v1 c2 t2 hd1 hd2 hr1 ih hm
    rw [getSubstitution.eq_def]
    split <;> simp_all
    case h_7 =>
      rename_i heq
      obtain ⟨he1, he2⟩ := heq
      subst he2
      dsimp only
      rw [hd2]
      dsimp only
      rw [if_pos hr1]
      rcases hm with h | h
      · exact absurd h.symm (digit_ne_gt hd1)
      · exact List.mem_append.mpr (Or.inr (ih (List.mem_cons.mp h)))
    case h_8 =>
      rename_i hc1 hc2 heq
      exact absurd heq.2.symm (hc2 c1 (c2 :: t2) heq.1.symm)
  case case11 =>
    rename_i c1 hn1 hn2 hn3 hn4 v1 c2 t2 hd1 hd2 hnr1 ih hm
    rw [getSubstitution.eq_def]
    split <;> simp_all
    case h_7 =>
      rename_i heq
      obtain ⟨he1, he2⟩ := heq
      subst he2
      dsimp only
      rw [hd2]
      dsimp only
      have hnr12 : ¬(1 ≤ v1 ∧ v1 ≤ caps.length) := by
        intro hcon
        have := hnr1 hcon.1
        omega
      rw [if_neg hnr12]
      rcases hm with h | h
      · exact absurd h.symm (digit_ne_gt hd1)
      · exact List.mem_cons_of_mem _ (ih (Or.inr (List.mem_cons.mp h)))
    case h_8 =>
      rename_i hc1 hc2 heq
      exact absurd heq.2.symm (hc2 c1 (c2 :: t2) heq.1.symm)
  case case12 =>
    rename_i c1 hn1 hn2 hn3 hn4 v1 hd1 hr1 hm
    exfalso
    rcases List.mem_cons.mp hm with h | h
    · exact absurd h.symm (by decide)
    · rcases List.mem_cons.mp h with h2 | h2
      · exact absurd h2.symm (digit_ne_gt hd1)
      · simp at h2
  case case13 =>
    rename_i c1 hn1 hn2 hn3 hn4 v1 hd1 hnr1 ih hm
    exfalso
    rcases List.mem_cons.mp hm with h | h
    · exact absurd h.symm (by decide)
    · rcases List.mem_cons.mp h with h2 | h2
      · exact absurd h2.symm (digit_ne_gt hd1)
      · simp at h2
  case case15 =>
    rename_i c t hx1 hx2 hx3 hx4 hx5 hx6 ih hm
    have hc : c ≠ '$' := by
      intro he
      cases t with
      | nil => exact hx1 he rfl
      | cons d ds => exact hx6 d ds he rfl
    rw [getSubstitution_cons_ne m b a caps t hc]
    rcases List.mem_cons.mp hm with h | h
    · subst h
      exact List.mem_cons_self _ _
    · exact List.mem_cons_of_mem _ (ih h)

/-! ## The injected meta tag and its detection -/

/-- The literal prefix of the injected tag, up to the opening quote of the
`content` attribute. -/
def metaPrefix : Str :=
  "<meta http-equiv=\"Content-Security-Policy\" content=\"".toList

/-- The tail of `metaPrefix` after `"<meta"`. -/
def metaMid : Str :=
  " http-equiv=\"Content-Security-Policy\" content=\"".toList

/-- The tail of `metaMid` after the leading space. -/
def metaMidTail : Str :=
  "http-equiv=\"Content-Security-Policy\" content=\"".toList

lemma metaTagFor_eq (csp : Str) :
    metaTagFor csp = metaPrefix ++ (escapeHtmlAttr csp ++ ['"', '>']) := by
  simp [metaTagFor, metaPrefix]

lemma metaTagFor_ne_nil (csp : Str) : metaTagFor csp ≠ [] := by
  rw [metaTagFor_eq]
  simp [metaPrefix]

lemma startsWithCI_self_append : ∀ (p s : Str), startsWithCI p (p ++ s) = true := by
  intro p
  induction p with
  | nil => intro s; rfl
  | cons c cs ih =>
    intro s
    rw [List.cons_append, startsWithCI_cons, ih s]
    simp [ciEq]

lemma cspCoreAt_core (w : Str) :
    cspCoreAt ("http-equiv=\"Content-Security-Policy\"".toList ++ w) = true := by
  have e1 : ("http-equiv=\"Content-Security-Policy\"".toList ++ w : Str)
      = "http-equiv=".toList ++ ('"' :: ("Content-Security-Policy".toList ++ ('"' :: w))) := by
    simp
  rw [e1]
  unfold cspCoreAt
  rw [startsWithCI_self_append]
  rw [show ("http-equiv=".toList
      ++ ('"' :: ("Content-Security-Policy".toList ++ ('"' :: w))) : Str).drop 11
      = '"' :: ("Content-Security-Policy".toList ++ ('"' :: w)) from rfl]
  dsimp only
  rw [startsWithCI_self_append]
  rw [show (("Content-Security-Policy".toList ++ ('"' :: w)) : Str).drop 23
      = '"' :: w from rfl]
  dsimp only
  decide

lemma containsCspCore_head {c : Char} {cs : Str} (h : cspCoreAt (c :: cs) = true) :
    containsCspCore (c :: cs) = true := by
  simp [containsCspCore, h]

/-- The detection regex matches at the start of the injected tag whenever some
`'>'` follows the `content` opening quote: the core of the pattern sits
entirely inside `metaPrefix`, before any `'>'`. -/
lemma cspMatchHere_metaPrefix {w : Str} (hw : '>' ∈ w) :
    (cspMatchHere (metaPrefix ++ w)).isSome = true := by
  obtain ⟨⟨x, y⟩, hsp⟩ :=
    Option.isSome_iff_exists.mp ((splitAtGt_isSome_iff w).mpr hw)
  unfold cspMatchHere
  rw [show (metaPrefix ++ w : Str) = "<meta".toList ++ (metaMid ++ w) from by
    simp [metaPrefix, metaMid]]
  rw [startsWithCI_self_append]
  rw [if_pos rfl]
  rw [show ("<meta".toList ++ (metaMid ++ w) : Str).drop 5 = metaMid ++ w from rfl]
  rw [splitAtGt_append_left (by decide : '>' ∉ metaMid) w, hsp]
  dsimp only [Option.map]
  rw [show (metaMid ++ x : Str) = ' ' :: (metaMidTail ++ x) from by
    simp [metaMid, metaMidTail]]
  dsimp only
  have hcore : containsCspCore (metaMidTail ++ x) = true := by
    have h1 : cspCoreAt (metaMidTail ++ x) = true := by
      rw [show (metaMidTail ++ x : Str)
          = "http-equiv=\"Content-Security-Policy\"".toList ++ (" content=\"".toList ++ x)
          from by simp [metaMidTail]]
      exact cspCoreAt_core _
    rw [show (metaMidTail ++ x : Str)
        = 'h' :: ("ttp-equiv=\"Content-Security-Policy\" content=\"".toList ++ x) from by
      simp [metaMidTail]]
    apply containsCspCore_head
    rw [show ('h' :: ("ttp-equiv=\"Content-Security-Policy\" content=\"".toList ++ x) : Str)
        = metaMidTail ++ x from by simp [metaMidTail]]
    exact h1
  rw [hcore]
  simp

/-! ## Counting CSP matches -/

lemma cspMatchHere_nil : cspMatchHere [] = none := by
  unfold cspMatchHere
  rw [show startsWithCI ("<meta".toList) [] = false from rfl]
  simp

lemma cspFind_isSome_append (pre : Str) : ∀ t : Str, (cspMatchHere t).isSome = true →
    (cspFind (pre ++ t)).isSome = true := by
  induction pre with
  | nil =>
    intro t h
    cases t with
    | nil => rw [cspMatchHere_nil] at h; exact absurd h (by simp)
    | cons c cs =>
      rw [List.nil_append]
      obtain ⟨⟨m, r⟩, hm⟩ := Option.isSome_iff_exists.mp h
      unfold cspFind
      rw [hm]
      rfl
  | cons c cs ih =>
    intro t h
    rw [List.cons_append]
    unfold cspFind
    cases hm : cspMatchHere (c :: (cs ++ t)) with
    | some p => rfl
    | none =>
      have := ih t h
      obtain ⟨⟨p, m, r⟩, hf⟩ := Option.isSome_iff_exists.mp this
      rw [hf]
      rfl

lemma cspCount_eq_zero_of_find_none : ∀ {s : Str}, cspFind s = none → cspCount s = 0 := by
  intro s
  induction s with
  | nil => intro _; rfl
  | cons c cs ih =>
    intro h
    unfold cspFind at h
    cases hm : cspMatchHere (c :: cs) with
    | some p => rw [hm] at h; exact absurd h (by simp)
    | none =>
      rw [hm] at h
      cases hf : cspFind cs with
      | some q => rw [hf] at h; obtain ⟨p2, m2, r2⟩ := q; exact absurd h (by simp)
      | none =>
        show (if (cspMatchHere (c :: cs)).isSome then 1 else 0) + cspCount cs = 0
        rw [hm, ih hf]
        rfl

/-- Number of positions lying inside `x` at which the detection regex matches
in the document `x ++ y`. -/
def cspCountPre : Str → Str → Nat
  | [], _ => 0
  | c :: cs, y => (if (cspMatchHere (c :: (cs ++ y))).isSome then 1 else 0) + cspCountPre cs y

lemma cspCountPre_nil (y : Str) : cspCountPre [] y = 0 := rfl

lemma cspCountPre_cons (c : Char) (cs y : Str) :
    cspCountPre (c :: cs) y
      = (if (cspMatchHere (c :: (cs ++ y))).isSome then 1 else 0) + cspCountPre cs y := rfl

lemma cspCountPre_cons_none {c : Char} {cs y : Str}
    (h : cspMatchHere (c :: (cs ++ y)) = none) :
    cspCountPre (c :: cs) y = cspCountPre cs y := by
  rw [cspCountPre_cons, h]
  simp

lemma cspCount_append : ∀ x y : Str, cspCount (x ++ y) = cspCountPre x y + cspCount y := by
  intro x y
  induction x with
  | nil => rw [List.nil_append, cspCountPre_nil, Nat.zero_add]
  | cons c cs ih =>
    rw [List.cons_append]
    show (if (cspMatchHere (c :: (cs ++ y))).isSome then 1 else 0) + cspCount (cs ++ y) = _
    rw [ih, cspCountPre_cons]
    omega

lemma cspCountPre_append (x1 x2 y : Str) :
    cspCountPre (x1 ++ x2) y = cspCountPre x1 (x2 ++ y) + cspCountPre x2 y := by
  induction x1 with
  | nil => rw [List.nil_append, cspCountPre_nil, Nat.zero_add]
  | cons c cs ih =>
    rw [List.cons_append, cspCountPre_cons, cspCountPre_cons, ih]
    rw [show ((cs ++ x2) ++ y : Str) = cs ++ (x2 ++ y) from by simp]
    omega

lemma cspMatchHere_none_of_head {c : Char} (h : c ≠ '<') (t : Str) :
    cspMatchHere (c :: t) = none := by
  unfold cspMatchHere
  rw [show ("<meta".toList : Str) = '<' :: "meta".toList from rfl, startsWithCI_cons,
    ciEq_lt_false h]
  simp

lemma cspMatchHere_none_of_second (c1 : Char) {c2 : Char} (h2 : ciEq 'm' c2 = false)
    (t : Str) : cspMatchHere (c1 :: c2 :: t) = none := by
  unfold cspMatchHere
  rw [show ("<meta".toList : Str) = '<' :: 'm' :: "eta".toList from rfl, startsWithCI_cons,
    startsWithCI_cons, h2]
  simp

lemma cspCountPre_zero_of_no_lt : ∀ {x : Str}, (∀ c ∈ x, c ≠ '<') → ∀ y : Str,
    cspCountPre x y = 0 := by
  intro x
  induction x with
  | nil => intro _ y; rfl
  | cons c cs ih =>
    intro h y
    rw [cspCountPre_cons_none (cspMatchHere_none_of_head (h c (by simp)) _)]
    exact ih (fun d hd => h d (by simp [hd])) y

/-- Chunks in which every position either starts with a non-`'<'` character or
is a `'<'` followed (inside the chunk) by something that cannot continue
`<meta`: no position in such a chunk can start a CSP match, whatever follows. -/
def safeChunk : Str → Bool
  | [] => true
  | [c] => c ≠ '<'
  | c :: c2 :: cs => (if c = '<' then ciEq 'm' c2 = false else true) && safeChunk (c2 :: cs)

lemma cspCountPre_zero_of_safeChunk : ∀ {x : Str}, safeChunk x = true → ∀ y : Str,
    cspCountPre x y = 0 := by
  intro x
  induction x with
  | nil => intro _ y; rfl
  | cons c cs ih =>
    intro h y
    cases cs with
    | nil =>
      have hc : c ≠ '<' := by
        simpa [safeChunk] using h
      rw [cspCountPre_cons_none (cspMatchHere_none_of_head hc _), cspCountPre_nil]
    | cons c2 cs2 =>
      have h2 : (¬c = '<' ∨ ciEq 'm' c2 = false) ∧ safeChunk (c2 :: cs2) = true := by
        simpa [safeChunk, Bool.and_eq_true] using h
      have hrest := ih h2.2 y
      by_cases hc : c = '<'
      · have hm : ciEq 'm' c2 = false := h2.1.resolve_left (fun hn => hn hc)
        rw [cspCountPre_cons_none
          (show cspMatchHere (c :: ((c2 :: cs2) ++ y)) = none from
            cspMatchHere_none_of_second c hm _)]
        exact hrest
      · rw [cspCountPre_cons_none (cspMatchHere_none_of_head hc _)]
        exact hrest

lemma cspCountPre_transfer (x : Str) {u v : Str} (hlow : lowKey u = lowKey v)
    (hu : '>' ∉ u) (a b : Str) :
    cspCountPre x (u ++ '>' :: a) = cspCountPre x (v ++ '>' :: b) := by
  induction x with
  | nil => rfl
  | cons c cs ih =>
    rw [cspCountPre_cons, cspCountPre_cons,
      show (c :: (cs ++ (u ++ '>' :: a)) : Str) = (c :: cs) ++ (u ++ '>' :: a) from rfl,
      show (c :: (cs ++ (v ++ '>' :: b)) : Str) = (c :: cs) ++ (v ++ '>' :: b) from rfl,
      cspMatchHere_transfer hlow hu a b, ih]

lemma cspCountPre_boundary : ∀ {x x' : Str}, lowKey x = lowKey x' → '>' ∉ x →
    ∀ a b : Str, cspCountPre x ('>' :: a) = cspCountPre x' ('>' :: b) := by
  intro x
  induction x with
  | nil =>
    intro x' h _ a b
    cases x' with
    | nil => rfl
    | cons d ds => simp [lowKey] at h
  | cons c cs ih =>
    intro x' h hx a b
    cases x' with
    | nil => simp [lowKey] at h
    | cons d ds =>
      rw [lowKey_cons, lowKey_cons, List.cons.injEq] at h
      have hcs : '>' ∉ cs := fun hm => hx (by simp [hm])
      have hlow2 : lowKey (c :: cs) = lowKey (d :: ds) := by
        rw [lowKey_cons, lowKey_cons, h.1, h.2]
      rw [cspCountPre_cons, cspCountPre_cons,
        show (c :: (cs ++ '>' :: a) : Str) = (c :: cs) ++ '>' :: a from rfl,
        show (d :: (ds ++ '>' :: b) : Str) = (d :: ds) ++ '>' :: b from rfl,
        cspMatchHere_boundary hlow2 hx a b, ih h.2 hcs a b]

/-! ## Decomposition of a tag match -/

lemma startsWithCI_lowKey_take : ∀ {p s : Str}, startsWithCI p s = true →
    lowKey (s.take p.length) = lowKey p := by
  intro p
  induction p with
  | nil => intro s _; rfl
  | cons q ps ih =>
    intro s h
    cases s with
    | nil => exact absurd h (by simp [startsWithCI])
    | cons c cs =>
      rw [startsWithCI_cons, Bool.and_eq_true] at h
      have hq : lowNat q.toNat = lowNat c.toNat := by
        have := h.1
        simp [ciEq] at this
        exact this
      rw [List.length_cons, List.take_succ_cons, lowKey_cons, lowKey_cons, hq, ih h.2]

lemma tagMatchHere_spec {name s op attrs rest : Str}
    (h : tagMatchHere name s = some (op, attrs, rest)) :
    s = op ++ (attrs ++ '>' :: rest) ∧ lowKey op = lowKey ('<' :: name) ∧ '>' ∉ attrs := by
  unfold tagMatchHere at h
  by_cases hs : startsWithCI ('<' :: name) s = true
  · rw [if_pos hs] at h
    cases hsp : splitAtGt (s.drop (name.length + 1)) with
    | none => rw [hsp] at h; exact absurd h (by simp)
    | some v =>
      obtain ⟨x, y⟩ := v
      rw [hsp] at h
      dsimp only at h
      rw [Option.some.injEq, Prod.mk.injEq, Prod.mk.injEq] at h
      obtain ⟨hop, hattrs, hrest⟩ := h
      obtain ⟨hdec, hnx⟩ := splitAtGt_spec hsp
      refine ⟨?_, ?_, ?_⟩
      · rw [← hop, ← hattrs, ← hrest]
        calc s = s.take (name.length + 1) ++ s.drop (name.length + 1) :=
              (List.take_append_drop _ s).symm
          _ = s.take (name.length + 1) ++ (x ++ '>' :: y) := by rw [hdec]
      · rw [← hop]
        have := startsWithCI_lowKey_take hs
        rw [List.length_cons] at this
        exact this
      · rw [← hattrs]; exact hnx
  · rw [if_neg hs] at h
    exact absurd h (by simp)

lemma tagFind_spec {name : Str} : ∀ {s pre op attrs rest : Str},
    tagFind name s = some (pre, op, attrs, rest) →
    s = pre ++ (op ++ (attrs ++ '>' :: rest)) ∧ lowKey op = lowKey ('<' :: name)
      ∧ '>' ∉ attrs := by
  intro s
  induction s with
  | nil => intro pre op attrs rest h; exact absurd h (by simp [tagFind])
  | cons c cs ih =>
    intro pre op attrs rest h
    unfold tagFind at h
    cases hm : tagMatchHere name (c :: cs) with
    | some v =>
      obtain ⟨o, a, r⟩ := v
      rw [hm] at h
      dsimp only at h
      rw [Option.some.injEq, Prod.mk.injEq, Prod.mk.injEq, Prod.mk.injEq] at h
      obtain ⟨hpre, hop, hattrs, hrest⟩ := h
      obtain ⟨hdec, hlow, hna⟩ := tagMatchHere_spec hm
      subst hpre hop hattrs hrest
      exact ⟨by simpa using hdec, hlow, hna⟩
    | none =>
      rw [hm] at h
      cases hf : tagFind name cs with
      | some v =>
        obtain ⟨p, o, a, r⟩ := v
        rw [hf] at h
        dsimp only at h
        rw [Option.some.injEq, Prod.mk.injEq, Prod.mk.injEq, Prod.mk.injEq] at h
        obtain ⟨hpre, hop, hattrs, hrest⟩ := h
        obtain ⟨hdec, hlow, hna⟩ := ih hf
        subst hop hattrs hrest
        rw [← hpre]
        exact ⟨by rw [List.cons_append, ← hdec], hlow, hna⟩
      | none => rw [hf] at h; exact absurd h (by simp)

/-! ## Processing the injection templates -/

lemma getSubstitution_head_templateG (m b a : Str) (attrs csp : Str) :
    getSubstitution m b a [attrs] ("<head$1>\n".toList ++ metaTagFor csp ++ ['\n'])
      = "<head".toList ++ (attrs ++ ('>' :: '\n' :: (metaPrefix
          ++ getSubstitution m b a [attrs]
              (escapeHtmlAttr csp ++ '"' :: '>' :: ['\n'])))) := by
  have e1 : ("<head$1>\n".toList ++ metaTagFor csp ++ ['\n'] : Str)
      = "<head".toList ++ ('$' :: '1' :: '>' :: '\n' :: (metaTagFor csp ++ ['\n'])) := by
    simp
  rw [e1]
  rw [show getSubstitution m b a [attrs]
        ("<head".toList ++ ('$' :: '1' :: '>' :: '\n' :: (metaTagFor csp ++ ['\n'])))
      = "<head".toList ++ getSubstitution m b a [attrs]
        ('$' :: '1' :: '>' :: '\n' :: (metaTagFor csp ++ ['\n']))
    from getSubstitution_append_no_dollar m b a [attrs] (by decide) _]
  rw [getSubstitution_dollar_one m b a attrs ('\n' :: (metaTagFor csp ++ ['\n']))
    (show digitVal? '>' = none from by decide)]
  have e2 : ('>' :: '\n' :: (metaTagFor csp ++ ['\n']) : Str)
      = ('>' :: '\n' :: metaPrefix) ++ (escapeHtmlAttr csp ++ '"' :: '>' :: ['\n']) := by
    rw [metaTagFor_eq]
    simp
  rw [e2]
  rw [show getSubstitution m b a [attrs]
        (('>' :: '\n' :: metaPrefix) ++ (escapeHtmlAttr csp ++ '"' :: '>' :: ['\n']))
      = ('>' :: '\n' :: metaPrefix) ++ getSubstitution m b a [attrs]
        (escapeHtmlAttr csp ++ '"' :: '>' :: ['\n'])
    from getSubstitution_append_no_dollar m b a [attrs]
      (by simp [metaPrefix]) _]
  simp

lemma getSubstitution_html_templateG (m b a : Str) (attrs csp : Str) :
    getSubstitution m b a [attrs]
        ("<html$1>\n<head>\n".toList ++ metaTagFor csp ++ "\n</head>".toList)
      = "<html".toList ++ (attrs ++ ('>' :: ("\n<head>\n".toList ++ (metaPrefix
          ++ getSubstitution m b a [attrs]
              (escapeHtmlAttr csp ++ '"' :: '>' :: "\n</head>".toList))))) := by
  have e1 : ("<html$1>\n<head>\n".toList ++ metaTagFor csp ++ "\n</head>".toList : Str)
      = "<html".toList ++ ('$' :: '1' :: '>' ::
          ("\n<head>\n".toList ++ (metaTagFor csp ++ "\n</head>".toList))) := by
    simp
  rw [e1]
  rw [show getSubstitution m b a [attrs]
        ("<html".toList ++ ('$' :: '1' :: '>' ::
          ("\n<head>\n".toList ++ (metaTagFor csp ++ "\n</head>".toList))))
      = "<html".toList ++ getSubstitution m b a [attrs]
        ('$' :: '1' :: '>' :: ("\n<head>\n".toList ++ (metaTagFor csp ++ "\n</head>".toList)))
    from getSubstitution_append_no_dollar m b a [attrs] (by decide) _]
  rw [getSubstitution_dollar_one m b a attrs
    ("\n<head>\n".toList ++ (metaTagFor csp ++ "\n</head>".toList))
    (show digitVal? '>' = none from by decide)]
  have e2 : ('>' :: ("\n<head>\n".toList ++ (metaTagFor csp ++ "\n</head>".toList)) : Str)
      = ('>' :: ("\n<head>\n".toList ++ metaPrefix))
          ++ (escapeHtmlAttr csp ++ '"' :: '>' :: "\n</head>".toList) := by
    rw [metaTagFor_eq]
    simp
  rw [e2]
  rw [show getSubstitution m b a [attrs]
        (('>' :: ("\n<head>\n".toList ++ metaPrefix))
          ++ (escapeHtmlAttr csp ++ '"' :: '>' :: "\n</head>".toList))
      = ('>' :: ("\n<head>\n".toList ++ metaPrefix)) ++ getSubstitution m b a [attrs]
        (escapeHtmlAttr csp ++ '"' :: '>' :: "\n</head>".toList)
    from getSubstitution_append_no_dollar m b a [attrs]
      (by simp [metaPrefix]) _]
  simp

/-! ## The three shapes of an injected document -/

lemma injectIntoHead_head_shape (html csp : Str) {pre op attrs rest : Str}
    (hfind : tagFind ("head".toList) html = some (pre, op, attrs, rest)) :
    injectIntoHead html (metaTagFor csp)
      = pre ++ ("<head".toList ++ (attrs ++ ('>' :: '\n' :: (metaPrefix
          ++ getSubstitution (op ++ attrs ++ ['>']) pre rest [attrs]
              (escapeHtmlAttr csp ++ '"' :: '>' :: ['\n']))))) ++ rest := by
  unfold injectIntoHead
  rw [if_neg (metaTagFor_ne_nil csp), hfind]
  dsimp only
  rw [getSubstitution_head_templateG]

lemma injectIntoHead_html_shape (html csp : Str) {pre op attrs rest : Str}
    (hhead : tagFind ("head".toList) html = none)
    (hfind : tagFind ("html".toList) html = some (pre, op, attrs, rest)) :
    injectIntoHead html (metaTagFor csp)
      = pre ++ ("<html".toList ++ (attrs ++ ('>' :: ("\n<head>\n".toList ++ (metaPrefix
          ++ getSubstitution (op ++ attrs ++ ['>']) pre rest [attrs]
              (escapeHtmlAttr csp ++ '"' :: '>' :: "\n</head>".toList)))))) ++ rest := by
  unfold injectIntoHead
  rw [if_neg (metaTagFor_ne_nil csp), hhead, hfind]
  dsimp only
  rw [getSubstitution_html_templateG]

lemma injectIntoHead_none_shape (html csp : Str)
    (hhead : tagFind ("head".toList) html = none)
    (hhtml : tagFind ("html".toList) html = none) :
    injectIntoHead html (metaTagFor csp)
      = "<head>\n".toList ++ metaTagFor csp ++ "\n</head>\n".toList ++ html := by
  unfold injectIntoHead
  rw [if_neg (metaTagFor_ne_nil csp), hhead, hhtml]

/-- With a `'$'`-free policy the substitution machinery is inert and the
injected head-tag case produces the meta tag verbatim. -/
lemma injectIntoHead_head_exact (html csp : Str) (hd : '$' ∉ csp)
    {pre op attrs rest : Str}
    (hfind : tagFind ("head".toList) html = some (pre, op, attrs, rest)) :
    injectIntoHead html (metaTagFor csp)
      = pre ++ (("<head".toList ++ attrs)
          ++ '>' :: '\n' :: (metaTagFor csp ++ '\n' :: rest)) := by
  rw [injectIntoHead_head_shape html csp hfind,
    getSubstitution_no_dollar _ _ _ _ (by
      intro hm
      rcases List.mem_append.mp hm with hm | hm
      · exact dollar_not_mem_escape hd hm
      · simp at hm),
    metaTagFor_eq]
  simp

lemma injectIntoHead_html_exact (html csp : Str) (hd : '$' ∉ csp)
    {pre op attrs rest : Str}
    (hhead : tagFind ("head".toList) html = none)
    (hfind : tagFind ("html".toList) html = some (pre, op, attrs, rest)) :
    injectIntoHead html (metaTagFor csp)
      = pre ++ (("<html".toList ++ attrs)
          ++ '>' :: ("\n<head>\n".toList
            ++ (metaTagFor csp ++ ("\n</head>".toList ++ rest)))) := by
  rw [injectIntoHead_html_shape html csp hhead hfind,
    getSubstitution_no_dollar _ _ _ _ (by
      intro hm
      rcases List.mem_append.mp hm with hm | hm
      · exact dollar_not_mem_escape hd hm
      · simp at hm),
    metaTagFor_eq]
  simp

/-! ## The injected document always contains a CSP match -/

lemma cspFind_inject_isSome (html csp : Str) :
    (cspFind (injectIntoHead html (metaTagFor csp))).isSome = true := by
  cases hhead : tagFind ("head".toList) html with
  | some v =>
    obtain ⟨pre, op, attrs, rest⟩ := v
    rw [injectIntoHead_head_shape html csp hhead]
    have hgt : '>' ∈ getSubstitution (op ++ attrs ++ ['>']) pre rest [attrs]
        (escapeHtmlAttr csp ++ '"' :: '>' :: ['\n']) ++ rest := by
      refine List.mem_append.mpr (Or.inl ?_)
      exact gt_mem_getSubstitution _ _ _ _ _ (by simp)
    rw [show (pre ++ ("<head".toList ++ (attrs ++ ('>' :: '\n' :: (metaPrefix
          ++ getSubstitution (op ++ attrs ++ ['>']) pre rest [attrs]
              (escapeHtmlAttr csp ++ '"' :: '>' :: ['\n']))))) ++ rest : Str)
        = (pre ++ ("<head".toList ++ (attrs ++ ['>', '\n'])))
          ++ (metaPrefix ++ (getSubstitution (op ++ attrs ++ ['>']) pre rest [attrs]
              (escapeHtmlAttr csp ++ '"' :: '>' :: ['\n']) ++ rest)) from by simp]
    exact cspFind_isSome_append _ _ (cspMatchHere_metaPrefix hgt)
  | none =>
    cases hhtml : tagFind ("html".toList) html with
    | some v =>
      obtain ⟨pre, op, attrs, rest⟩ := v
      rw [injectIntoHead_html_shape html csp hhead hhtml]
      have hgt : '>' ∈ getSubstitution (op ++ attrs ++ ['>']) pre rest [attrs]
          (escapeHtmlAttr csp ++ '"' :: '>' :: "\n</head>".toList) ++ rest := by
        refine List.mem_append.mpr (Or.inl ?_)
        exact gt_mem_getSubstitution _ _ _ _ _ (by simp)
      rw [show (pre ++ ("<html".toList ++ (attrs ++ ('>' :: ("\n<head>\n".toList
            ++ (metaPrefix ++ getSubstitution (op ++ attrs ++ ['>']) pre rest [attrs]
                (escapeHtmlAttr csp ++ '"' :: '>' :: "\n</head>".toList)))))) ++ rest : Str)
          = (pre ++ ("<html".toList ++ (attrs ++ ('>' :: "\n<head>\n".toList))))
            ++ (metaPrefix ++ (getSubstitution (op ++ attrs ++ ['>']) pre rest [attrs]
                (escapeHtmlAttr csp ++ '"' :: '>' :: "\n</head>".toList) ++ rest))
        from by simp]
      exact cspFind_isSome_append _ _ (cspMatchHere_metaPrefix hgt)
    | none =>
      rw [injectIntoHead_none_shape html csp hhead hhtml, metaTagFor_eq]
      rw [show (("<head>\n".toList ++ (metaPrefix ++ (escapeHtmlAttr csp ++ ['"', '>']))
            ++ "\n</head>\n".toList ++ html) : Str)
          = "<head>\n".toList ++ (metaPrefix ++ (escapeHtmlAttr csp
              ++ '"' :: '>' :: ("\n</head>\n".toList ++ html))) from by simp]
      refine cspFind_isSome_append _ _ (cspMatchHere_metaPrefix ?_)
      simp

/-- `ensureCspMeta` in non-overwrite mode leaves a document containing a CSP
match unchanged. -/
lemma ensureCspMeta_found_eq (r csp : Str) (hc : csp ≠ [])
    (hf : (cspFind r).isSome = true) : ensureCspMeta r csp false = r := by
  have hr : r ≠ [] := by
    intro he
    subst he
    simp [cspFind] at hf
  obtain ⟨⟨p, m, rst⟩, he⟩ := Option.isSome_iff_exists.mp hf
  unfold ensureCspMeta
  rw [if_neg (not_or.mpr ⟨hr, hc⟩), he]
  simp

/-- C9: `ensureCspMeta` is idempotent in non-overwrite mode for every document
and every non-empty policy: the tag injected by the first pass (or already
present) is matched by the CSP-detection scan of the second pass, which
therefore returns its input unchanged. -/
theorem c9_idempotent (html csp : Str) (hc : csp ≠ []) :
    ensureCspMeta (ensureCspMeta html csp false) csp false
      = ensureCspMeta html csp false := by
  by_cases hh : html = []
  · subst hh
    have h0 : ensureCspMeta [] csp false = [] := by
      unfold ensureCspMeta
      rw [if_pos (Or.inl rfl)]
    rw [h0, h0]
  · cases hf : cspFind html with
    | some v =>
      obtain ⟨p, m, rst⟩ := v
      have hr : ensureCspMeta html csp false = html := by
        unfold ensureCspMeta
        rw [if_neg (not_or.mpr ⟨hh, hc⟩), hf]
        simp
      rw [hr]
      exact hr
    | none =>
      have hr : ensureCspMeta html csp false = injectIntoHead html (metaTagFor csp) := by
        unfold ensureCspMeta
        rw [if_neg (not_or.mpr ⟨hh, hc⟩), hf]
      rw [hr]
      exact ensureCspMeta_found_eq _ _ hc (cspFind_inject_isSome html csp)

/-- Witness for C9 at a concrete document and policy. -/
theorem c9_idempotent_witness :
    ensureCspMeta (ensureCspMeta "<p>hi".toList "x".toList false) "x".toList false
      = ensureCspMeta "<p>hi".toList "x".toList false :=
  c9_idempotent "<p>hi".toList "x".toList (by decide)

/-! ## Exactly one match in the injected document -/

/-- `metaPrefix` without its leading `'<'`. -/
def metaPrefixTail : Str :=
  "meta http-equiv=\"Content-Security-Policy\" content=\"".toList

/-- The injected tag contributes exactly one matching position: its own start.
No later position inside it can start a match, because no later character is
`'<'`. -/
lemma cspCountPre_metaTag (csp : Str) (y : Str) :
    cspCountPre (metaTagFor csp) y = 1 := by
  rw [metaTagFor_eq]
  rw [show (metaPrefix ++ (escapeHtmlAttr csp ++ ['"', '>']) : Str)
      = '<' :: (metaPrefixTail ++ (escapeHtmlAttr csp ++ ['"', '>'])) from by
    simp [metaPrefix, metaPrefixTail]]
  rw [cspCountPre_cons]
  have hmatch : (cspMatchHere
      ('<' :: ((metaPrefixTail ++ (escapeHtmlAttr csp ++ ['"', '>'])) ++ y))).isSome
      = true := by
    rw [show ('<' :: ((metaPrefixTail ++ (escapeHtmlAttr csp ++ ['"', '>'])) ++ y) : Str)
        = metaPrefix ++ (escapeHtmlAttr csp ++ '"' :: '>' :: y) from by
      simp [metaPrefix, metaPrefixTail]]
    exact cspMatchHere_metaPrefix (by simp)
  rw [hmatch]
  have h1 : cspCountPre metaPrefixTail ((escapeHtmlAttr csp ++ ['"', '>']) ++ y) = 0 :=
    cspCountPre_zero_of_no_lt (by decide) _
  have h2 : cspCountPre (escapeHtmlAttr csp) (['"', '>'] ++ y) = 0 :=
    cspCountPre_zero_of_no_lt (fun c hm he => lt_not_mem_escape csp (he ▸ hm)) _
  have h3 : cspCountPre ['"', '>'] y = 0 :=
    cspCountPre_zero_of_no_lt (by decide) _
  rw [cspCountPre_append, cspCountPre_append, h1, h2, h3]
  rfl

lemma cspCountPre_chunk_headOpen (y : Str) : cspCountPre ("<head>\n".toList) y = 0 :=
  cspCountPre_zero_of_safeChunk (by decide) y

lemma cspCountPre_chunk_nlHead (y : Str) : cspCountPre ("\n<head>\n".toList) y = 0 :=
  cspCountPre_zero_of_safeChunk (by decide) y

lemma cspCountPre_chunk_nlCloseHead (y : Str) : cspCountPre ("\n</head>".toList) y = 0 :=
  cspCountPre_zero_of_safeChunk (by decide) y

lemma cspCountPre_chunk_nlCloseHeadNl (y : Str) :
    cspCountPre ("\n</head>\n".toList) y = 0 :=
  cspCountPre_zero_of_safeChunk (by decide) y

/-- C3 counterexample: the empty document contains no CSP meta tag, yet
`ensureCspMeta` passes it through with no tag injected, so the result does not
contain exactly one CSP meta tag. -/
theorem c3_counterexample :
    cspFind ([] : Str) = none ∧ ensureCspMeta [] "x".toList false = []
      ∧ cspCount (ensureCspMeta [] "x".toList false) ≠ 1 := by
  decide

set_option maxHeartbeats 1000000 in
/-- C3 (amended): for every non-empty document in which the CSP-detection
regex finds no match and every non-empty `'$'`-free policy, `ensureCspMeta`
with either flag value returns a document with exactly one matching position,
and the injected tag carries the escaped policy verbatim. -/
theorem c3_unique_tag (html csp : Str) (hh : html ≠ []) (hc : csp ≠ [])
    (hd : '$' ∉ csp) (hfind : cspFind html = none) (b : Bool) :
    cspCount (ensureCspMeta html csp b) = 1 ∧
      ∃ u v : Str, ensureCspMeta html csp b = u ++ (metaTagFor csp ++ v) := by
  have hr : ensureCspMeta html csp b = injectIntoHead html (metaTagFor csp) := by
    unfold ensureCspMeta
    rw [if_neg (not_or.mpr ⟨hh, hc⟩), hfind]
  rw [hr]
  have hcount0 : cspCount html = 0 := cspCount_eq_zero_of_find_none hfind
  cases hhead : tagFind ("head".toList) html with
  | some v =>
    obtain ⟨pre, op, attrs, rest⟩ := v
    obtain ⟨hdecomp, hlow, hnattrs⟩ := tagFind_spec hhead
    have hlow2 : lowKey ("<head".toList ++ attrs) = lowKey (op ++ attrs) := by
      rw [lowKey_append, lowKey_append, hlow]
      rfl
    have hu : '>' ∉ "<head".toList ++ attrs := by
      intro hm
      rcases List.mem_append.mp hm with hm | hm
      · exact (by decide : '>' ∉ ("<head".toList : Str)) hm
      · exact hnattrs hm
    have hsplit : cspCountPre pre ((op ++ attrs) ++ '>' :: rest)
        + (cspCountPre (op ++ attrs) ('>' :: rest) + cspCount ('>' :: rest)) = 0 := by
      have e : html = (pre ++ (op ++ attrs)) ++ '>' :: rest := by
        rw [hdecomp]
        simp
      rw [e, cspCount_append, cspCountPre_append] at hcount0
      omega
    have hC : cspCount ('>' :: rest) = cspCount rest := by
      show (if (cspMatchHere ('>' :: rest)).isSome then 1 else 0) + cspCount rest = _
      rw [cspMatchHere_none_of_head (by decide) rest]
      simp
    rw [injectIntoHead_head_exact html csp hd hhead]
    constructor
    · have e2 : (pre ++ (("<head".toList ++ attrs)
            ++ '>' :: '\n' :: (metaTagFor csp ++ '\n' :: rest)) : Str)
          = (pre ++ ("<head".toList ++ attrs))
            ++ '>' :: ('\n' :: (metaTagFor csp ++ '\n' :: rest)) := by
        simp
      rw [e2, cspCount_append, cspCountPre_append]
      have t1 : cspCountPre pre (("<head".toList ++ attrs)
            ++ '>' :: ('\n' :: (metaTagFor csp ++ '\n' :: rest)))
          = cspCountPre pre ((op ++ attrs) ++ '>' :: rest) :=
        cspCountPre_transfer pre hlow2 hu _ _
      have t2 : cspCountPre ("<head".toList ++ attrs)
            ('>' :: ('\n' :: (metaTagFor csp ++ '\n' :: rest)))
          = cspCountPre (op ++ attrs) ('>' :: rest) :=
        cspCountPre_boundary hlow2 hu _ _
      have t3 : cspCount ('\n' :: (metaTagFor csp ++ '\n' :: rest))
          = 1 + cspCount rest := by
        show (if (cspMatchHere ('\n' :: (metaTagFor csp ++ '\n' :: rest))).isSome
            then 1 else 0) + cspCount (metaTagFor csp ++ '\n' :: rest)
            = 1 + cspCount rest
        rw [cspMatchHere_none_of_head (by decide) _, cspCount_append, cspCountPre_metaTag]
        have t3a : cspCount ('\n' :: rest) = cspCount rest := by
          show (if (cspMatchHere ('\n' :: rest)).isSome then 1 else 0) + cspCount rest = _
          rw [cspMatchHere_none_of_head (by decide) rest]
          simp
        rw [t3a]
        simp
      have t4 : cspCount ('>' :: ('\n' :: (metaTagFor csp ++ '\n' :: rest)))
          = 1 + cspCount rest := by
        show (if (cspMatchHere ('>' :: ('\n' :: (metaTagFor csp
            ++ '\n' :: rest)))).isSome then 1 else 0)
            + cspCount ('\n' :: (metaTagFor csp ++ '\n' :: rest)) = 1 + cspCount rest
        rw [cspMatchHere_none_of_head (by decide) _, t3]
        simp
      rw [t1, t2, t4]
      omega
    · exact ⟨pre ++ (("<head".toList ++ attrs) ++ ['>', '\n']), '\n' :: rest, by simp⟩
  | none =>
    cases hhtml : tagFind ("html".toList) html with
    | some v =>
      obtain ⟨pre, op, attrs, rest⟩ := v
      obtain ⟨hdecomp, hlow, hnattrs⟩ := tagFind_spec hhtml
      have hlow2 : lowKey ("<html".toList ++ attrs) = lowKey (op ++ attrs) := by
        rw [lowKey_append, lowKey_append, hlow]
        rfl
      have hu : '>' ∉ "<html".toList ++ attrs := by
        intro hm
        rcases List.mem_append.mp hm with hm | hm
        · exact (by decide : '>' ∉ ("<html".toList : Str)) hm
        · exact hnattrs hm
      have hsplit : cspCountPre pre ((op ++ attrs) ++ '>' :: rest)
          + (cspCountPre (op ++ attrs) ('>' :: rest) + cspCount ('>' :: rest)) = 0 := by
        have e : html = (pre ++ (op ++ attrs)) ++ '>' :: rest := by
          rw [hdecomp]
          simp
        rw [e, cspCount_append, cspCountPre_append] at hcount0
        omega
      have hC : cspCount ('>' :: rest) = cspCount rest := by
        show (if (cspMatchHere ('>' :: rest)).isSome then 1 else 0) + cspCount rest = _
        rw [cspMatchHere_none_of_head (by decide) rest]
        simp
      rw [injectIntoHead_html_exact html csp hd hhead hhtml]
      constructor
      · have e2 : (pre ++ (("<html".toList ++ attrs)
              ++ '>' :: ("\n<head>\n".toList
                ++ (metaTagFor csp ++ ("\n</head>".toList ++ rest)))) : Str)
            = (pre ++ ("<html".toList ++ attrs))
              ++ '>' :: ("\n<head>\n".toList
                ++ (metaTagFor csp ++ ("\n</head>".toList ++ rest))) := by
          simp
        rw [e2, cspCount_append, cspCountPre_append]
        have t1 : cspCountPre pre (("<html".toList ++ attrs)
              ++ '>' :: ("\n<head>\n".toList
                ++ (metaTagFor csp ++ ("\n</head>".toList ++ rest))))
            = cspCountPre pre ((op ++ attrs) ++ '>' :: rest) :=
          cspCountPre_transfer pre hlow2 hu _ _
        have t2 : cspCountPre ("<html".toList ++ attrs)
              ('>' :: ("\n<head>\n".toList
                ++ (metaTagFor csp ++ ("\n</head>".toList ++ rest))))
            = cspCountPre (op ++ attrs) ('>' :: rest) :=
          cspCountPre_boundary hlow2 hu _ _
        have t3 : cspCount ("\n<head>\n".toList
              ++ (metaTagFor csp ++ ("\n</head>".toList ++ rest)))
            = 1 + cspCount rest := by
          rw [cspCount_append, cspCountPre_chunk_nlHead, cspCount_append,
            cspCountPre_metaTag, cspCount_append, cspCountPre_chunk_nlCloseHead]
          omega
        have t4 : cspCount ('>' :: ("\n<head>\n".toList
              ++ (metaTagFor csp ++ ("\n</head>".toList ++ rest))))
            = 1 + cspCount rest := by
          show (if (cspMatchHere ('>' :: ("\n<head>\n".toList
              ++ (metaTagFor csp ++ ("\n</head>".toList ++ rest))))).isSome
              then 1 else 0)
              + cspCount ("\n<head>\n".toList
                ++ (metaTagFor csp ++ ("\n</head>".toList ++ rest)))
              = 1 + cspCount rest
          rw [cspMatchHere_none_of_head (by decide) _, t3]
          simp
        rw [t1, t2, t4]
        omega
      · exact ⟨pre ++ (("<html".toList ++ attrs) ++ '>' :: "\n<head>\n".toList),
          "\n</head>".toList ++ rest, by simp⟩
    | none =>
      rw [injectIntoHead_none_shape html csp hhead hhtml]
      constructor
      · rw [show (("<head>\n".toList ++ metaTagFor csp ++ "\n</head>\n".toList
              ++ html) : Str)
            = "<head>\n".toList
              ++ (metaTagFor csp ++ ("\n</head>\n".toList ++ html)) from by simp]
        rw [cspCount_append, cspCountPre_chunk_headOpen, cspCount_append,
          cspCountPre_metaTag, cspCount_append, cspCountPre_chunk_nlCloseHeadNl,
          hcount0]
      · exact ⟨"<head>\n".toList, "\n</head>\n".toList ++ html, by simp⟩

/-- Witness for C3 at a concrete document and policy. -/
theorem c3_unique_tag_witness :
    cspCount (ensureCspMeta "<p>hi".toList "x".toList false) = 1 ∧
      ∃ u v : Str,
        ensureCspMeta "<p>hi".toList "x".toList false
          = u ++ (metaTagFor "x".toList ++ v) :=
  c3_unique_tag "<p>hi".toList "x".toList (by decide) (by decide) (by decide)
    (by decide) false

/-- C4 counterexample: in the empty document no CSP meta tag, no `<head>` and
no `<html>` open tag is present, so the claim requires the synthesized
`<head>…</head>` block to be prepended; the code instead returns the empty
document unchanged. -/
theorem c4_counterexample :
    cspFind ([] : Str) = none ∧ tagFind ("head".toList) ([] : Str) = none
      ∧ tagFind ("html".toList) ([] : Str) = none
      ∧ ensureCspMeta [] "x".toList false = []
      ∧ ensureCspMeta [] "x".toList false
          ≠ "<head>\n".toList ++ metaTagFor "x".toList ++ "\n</head>\n".toList ++ [] := by
  decide

/-- C4 (amended): for a non-empty document and a non-empty `'$'`-free policy,
the injector places the new tag as the first child of a matched head open tag;
failing that, wraps it in a synthesized head right after a matched html open
tag; failing both, prepends a synthesized head block; and a document already
containing a CSP match is returned unchanged when overwrite is false. -/
theorem c4_placement (html csp : Str) (hh : html ≠ []) (hc : csp ≠ [])
    (hd : '$' ∉ csp) :
    (∀ b : Bool, ∀ pre op attrs rest : Str, cspFind html = none →
        tagFind ("head".toList) html = some (pre, op, attrs, rest) →
        ensureCspMeta html csp b
          = pre ++ (("<head".toList ++ attrs)
              ++ '>' :: '\n' :: (metaTagFor csp ++ '\n' :: rest))) ∧
    (∀ b : Bool, ∀ pre op attrs rest : Str, cspFind html = none →
        tagFind ("head".toList) html = none →
        tagFind ("html".toList) html = some (pre, op, attrs, rest) →
        ensureCspMeta html csp b
          = pre ++ (("<html".toList ++ attrs)
              ++ '>' :: ("\n<head>\n".toList
                ++ (metaTagFor csp ++ ("\n</head>".toList ++ rest))))) ∧
    (∀ b : Bool, cspFind html = none → tagFind ("head".toList) html = none →
        tagFind ("html".toList) html = none →
        ensureCspMeta html csp b
          = "<head>\n".toList ++ metaTagFor csp ++ "\n</head>\n".toList ++ html) ∧
    (∀ x, cspFind html = some x → ensureCspMeta html csp false = html) := by
  refine ⟨?_, ?_, ?_, ?_⟩
  · intro b pre op attrs rest hfind hhead
    have hr : ensureCspMeta html csp b = injectIntoHead html (metaTagFor csp) := by
      unfold ensureCspMeta
      rw [if_neg (not_or.mpr ⟨hh, hc⟩), hfind]
    rw [hr, injectIntoHead_head_exact html csp hd hhead]
  · intro b pre op attrs rest hfind hhead hhtml
    have hr : ensureCspMeta html csp b = injectIntoHead html (metaTagFor csp) := by
      unfold ensureCspMeta
      rw [if_neg (not_or.mpr ⟨hh, hc⟩), hfind]
    rw [hr, injectIntoHead_html_exact html csp hd hhead hhtml]
  · intro b hfind hhead hhtml
    have hr : ensureCspMeta html csp b = injectIntoHead html (metaTagFor csp) := by
      unfold ensureCspMeta
      rw [if_neg (not_or.mpr ⟨hh, hc⟩), hfind]
    rw [hr, injectIntoHead_none_shape html csp hhead hhtml]
  · intro x hfind
    obtain ⟨p, m, rst⟩ := x
    unfold ensureCspMeta
    rw [if_neg (not_or.mpr ⟨hh, hc⟩), hfind]
    simp

/-- Witness for C4 at a concrete document with a head tag. -/
theorem c4_placement_witness :
    ensureCspMeta "<head>x".toList "p".toList false
      = [] ++ (("<head".toList ++ [])
          ++ '>' :: '\n' :: (metaTagFor "p".toList ++ '\n' :: "x".toList)) :=
  (c4_placement "<head>x".toList "p".toList (by decide) (by decide) (by decide)).1
    false [] "<head".toList [] "x".toList (by decide) (by decide)

end McpProxy
